import Mathlib

/-
  Verification development for the assets-availability backend.

  The repository aggregates swap-route and slippage data for token pairs
  from two quote providers (LiFi, connections-style; Oku, order-based),
  caches results in SQL tables (`routes_cache`, `slippage_cache`, `price`,
  `tokens`) and serves cached reads.

  This file gives a shallow embedding of the algorithmic core:
  - JavaScript number semantics for the slippage formula (rationals plus
    explicit IEEE infinities / NaN for the zero-denominator case);
  - the pair enumeration used by both route-fetch pipelines;
  - the price-table lookup with its LBTC / stXTZ substitution workarounds;
  - the slippage pipeline loop with its global request counter and ceiling;
  - the Oku order lifecycle retry loops (UpdateQuoteParams / GetNewQuotes);
  - the cache-clearing and upsert behaviour of the route pipelines;
  - the cached read entry points and their error handling.

  Database tables are embedded as lists of rows; SQL timestamps as naturals
  (ISO-8601 strings compare lexicographically, hence order-isomorphic to
  their instants); network responses as oracle inputs describing what the
  upstream returned at each call site.
-/

namespace Avail

/-- JavaScript `number` values reachable by the slippage computation:
finite doubles are modelled as rationals, and the IEEE special values
produced by dividing by zero are explicit constructors. -/
inductive JsNum where
  | fin (q : ℚ)
  | posInf
  | negInf
  | nan
deriving DecidableEq, Repr

/-- JavaScript division restricted to finite operands: `a / b` is the
rational quotient when `b ≠ 0`, and otherwise the IEEE rule gives
`+Infinity`, `-Infinity` or `NaN` according to the sign of `a`. -/
def jsDiv (a b : ℚ) : JsNum :=
  if b = 0 then
    (if 0 < a then JsNum.posInf else if a < 0 then JsNum.negInf else JsNum.nan)
  else JsNum.fin (a / b)

/-- JavaScript `Math.round` on a finite value: round half toward positive
infinity, i.e. `⌊x + 1/2⌋`. -/
def jsRound (q : ℚ) : ℚ := ((⌊q + 1/2⌋ : ℤ) : ℚ)

/-- The code's 3-decimal rounding `Math.round(x * 1000) / 1000`. -/
def round3 (q : ℚ) : ℚ := jsRound (q * 1000) / 1000

/-- The slippage computation shared by slippageService.ts (lines 683-690,
on `fromAmountUSD` / `toAmountUSD` of the best route) and the Oku slippage
fetcher (on the USD values of the best quote):
`Math.round(((from - to) / from) * 100 * 1000) / 1000`.
`Math.round` and the division by 1000 both preserve the IEEE special
values, so a zero denominator propagates to the stored result. -/
def computeSlippage (fromUSD toUSD : ℚ) : JsNum :=
  match jsDiv (fromUSD - toUSD) fromUSD with
  | JsNum.fin q => JsNum.fin (round3 (q * 100))
  | JsNum.posInf => JsNum.posInf
  | JsNum.negInf => JsNum.negInf
  | JsNum.nan => JsNum.nan

/-- Modelled from the spec (4.4): "record the resulting percentage
(source-USD-value minus destination-USD-value, divided by source-USD-value,
times 100, rounded to 3 decimals)". Stated independently of the code's
`computeSlippage` so the two can be compared. -/
def specSlippagePercent (fromUSD toUSD : ℚ) : ℚ :=
  ((⌊(fromUSD - toUSD) / fromUSD * 100 * 1000 + 1/2⌋ : ℤ) : ℚ) / 1000

/-- Truthiness of a JavaScript `Map.get` result on a numeric map: `undefined`
and `0` are falsy, every other number is truthy (the prices handled here are
finite). Mirrors checks such as `if (!tokenPrice)`. -/
def priceTruthy : Option ℚ → Bool
  | none => false
  | some p => decide (p ≠ 0)

/-- Number of occurrences of an element in a list (used to state
"appears exactly once" properties). -/
def occ {α : Type} [DecidableEq α] (a : α) : List α → Nat
  | [] => 0
  | b :: l => (if a = b then 1 else 0) + occ a l

/-- SQL `MAX` over a list of non-null timestamps: `none` on the empty list. -/
def maxTimestamp : List Nat → Option Nat
  | [] => none
  | t :: ts =>
    match maxTimestamp ts with
    | none => some t
    | some m => some (max t m)

/-- Normalised pair key: `[from.symbol, to.symbol].sort().join(...)` from the
enumeration in lifiService.ts / okuService.ts. The sorted two-element array
is modelled as an ordered pair (the string join is injective on the symbols
in use, so the tuple is a faithful stand-in for the joined key). -/
def pairKey {β : Type} [LinearOrder β] (a b : β) : β × β :=
  if a ≤ b then (a, b) else (b, a)

/-- Accumulator of the pair enumeration: the `pairs` Set of normalised keys
and the `tokenPairs` array, as in lifiService.ts lines 18-19 and
okuService.ts lines 175-176. -/
structure EnumState (α β : Type) where
  seen : List (β × β)
  tokenPairs : List (α × α)

/-- Inner `for (let j ...)` loop of the enumeration at a fixed outer element
`x`: skip the self-pair, skip pairs whose normalised key is already in the
Set, otherwise record the key and push both directions. The source skips
the self-pair by index (`i === j`); as `symbol` is the primary key of the
`tokens` table the registry rows carry pairwise distinct symbols, for which
index equality coincides with the key equality used here. -/
def innerLoop {α β : Type} [LinearOrder β] (key : α → β) (x : α) :
    List α → EnumState α β → EnumState α β
  | [], st => st
  | u :: rest, st =>
    if key x = key u then innerLoop key x rest st
    else if pairKey (key x) (key u) ∈ st.seen then innerLoop key x rest st
    else innerLoop key x rest
      ⟨pairKey (key x) (key u) :: st.seen, st.tokenPairs ++ [(x, u), (u, x)]⟩

/-- Outer `for (let i ...)` loop of the enumeration: `pending` is the list of
outer elements still to process, and the inner loop always scans the full
token list. -/
def outerLoop {α β : Type} [LinearOrder β] (key : α → β) (tokens : List α) :
    List α → EnumState α β → EnumState α β
  | [], st => st
  | x :: rest, st => outerLoop key tokens rest (innerLoop key x tokens st)

/-- Exhaustive ordered-pair enumeration of lifiService.ts lines 17-39 and
okuService.ts lines 174-196: all unordered combinations, each expanded to
both directions, skipping self-pairs. -/
def generatePairs {α β : Type} [LinearOrder β] (key : α → β) (tokens : List α) : List (α × α) :=
  (outerLoop key tokens tokens ⟨[], []⟩).tokenPairs

/-- Both directed pairs of `t` with each element of the list, in list order. -/
def pairsWith {α : Type} (t : α) : List α → List (α × α)
  | [] => []
  | u :: us => (t, u) :: (u, t) :: pairsWith t us

/-- Reference shape of the enumeration output: for each element, both
directions with every later element. -/
def specPairs {α : Type} : List α → List (α × α)
  | [] => []
  | t :: ts => pairsWith t ts ++ specPairs ts

/-- Invariant of the outer enumeration loop: after processing the outer
elements of `done`, the key Set holds exactly the keys of those unordered
pairs that touch `done`. -/
def SeenInv {α β : Type} [LinearOrder β] (key : α → β) (tokens done : List α)
    (seen : List (β × β)) : Prop :=
  ∀ u v, u ∈ tokens → v ∈ tokens → key u ≠ key v →
    (pairKey (key u) (key v) ∈ seen ↔ u ∈ done ∨ v ∈ done)

/-- `toLowerCase` on symbols (`String.toLower`, spelled out on the character
list so that concrete instances evaluate). -/
def lowerStr (s : String) : String := String.mk (s.data.map Char.toLower)

/-- Row of the `tokens` table: `symbol` is the primary key. -/
structure Token where
  symbol : String
  address : String
  decimals : Nat
deriving DecidableEq, Repr

/-- Row of the `price` table (token prices are stored lowercased, as the
lookups key the map by `token.toLowerCase()`). -/
structure PriceRow where
  token : String
  price : ℚ
  timestamp : Nat
deriving DecidableEq, Repr

/-- Parsed `routes_data` JSON payload: the pair and the venue list that the
route pipelines serialise into the row (JSON round-tripping is elided). -/
structure RoutesData where
  pairFrom : String
  pairTo : String
  dexes : List String
deriving DecidableEq, Repr

/-- Row of the `routes_cache` table. -/
structure RouteRow where
  pair_from : String
  pair_to : String
  routes_data : RoutesData
  provider : String
  last_updated : Nat
deriving DecidableEq, Repr

/-- Row of the `slippage_cache` table. The LiFi slippage writer leaves
`provider` at its NULL-free default only in the Oku variant; rows written by
slippageService.ts carry no provider (modelled as `none`). Amount cells are
JavaScript numbers or SQL NULL. -/
structure SlipRow where
  pair_from : String
  pair_to : String
  amount_1000 : Option JsNum
  amount_10000 : Option JsNum
  amount_50000 : Option JsNum
  amount_100000 : Option JsNum
  calculation_timestamp : Option Nat
  provider : Option String
  last_updated : Nat
deriving DecidableEq, Repr

/-- Opaque database / setup failure. -/
inductive DbErr
  | err
deriving DecidableEq, Repr

/-- Result of the promise returned by a pipeline entry point: `resolved` is
a normal return, `rejected` an uncaught throw reaching the caller. -/
inductive Outcome
  | resolved
  | rejected (e : DbErr)
deriving DecidableEq, Repr

/-- Key equality for `ON CONFLICT (pair_from, pair_to, provider)`. -/
def sameRouteKey (r s : RouteRow) : Bool :=
  decide (r.pair_from = s.pair_from ∧ r.pair_to = s.pair_to ∧ r.provider = s.provider)

/-- The `INSERT ... ON CONFLICT (pair_from, pair_to, provider) DO UPDATE`
used by both route pipelines: update `routes_data` / `last_updated` of the
existing row for the key, else append a new row. -/
def upsertRoute (tbl : List RouteRow) (row : RouteRow) : List RouteRow :=
  if tbl.any (fun r => sameRouteKey r row) then
    tbl.map (fun r =>
      if sameRouteKey r row then
        { r with routes_data := row.routes_data, last_updated := row.last_updated }
      else r)
  else tbl ++ [row]

/-- The most recent `price` row for a token, i.e. the row the
`SELECT DISTINCT ON (token) ... ORDER BY token, timestamp DESC` query
returns for that token. -/
def latestRow : List PriceRow → String → Option PriceRow
  | [], _ => none
  | r :: rs, sym =>
    match latestRow rs sym with
    | none => if r.token = sym then some r else none
    | some best =>
      if r.token = sym ∧ best.timestamp < r.timestamp then some r else some best

/-- Latest stored price for a token, if any. -/
def latestPrice (tbl : List PriceRow) (sym : String) : Option ℚ :=
  (latestRow tbl sym).map (fun r => r.price)

namespace LifiService

/-- Upstream outcome of one `GET /v1/connections` call for a pair:
the request resolved with a (non)empty `connections` array, or it threw. -/
inductive ConnResp
  | conns (nonempty : Bool)
  | thrown
deriving DecidableEq, Repr

/-- Observable result of a route-fetch run: promise outcome, final
`routes_cache` contents, and the success / error counters. -/
structure RunResult where
  outcome : Outcome
  table : List RouteRow
  successCount : Nat
  errorCount : Nat
deriving DecidableEq, Repr

/-- Body of the per-pair loop of fetchAndCacheLiFiData (lines 51-102):
a non-empty `connections` answer upserts a LiFi row and counts a success, an
empty answer writes nothing, a thrown request counts an error; the loop
never stops early. -/
def processPair (now : Nat) (acc : List RouteRow × Nat × Nat)
    (p : Token × Token) (resp : ConnResp) : List RouteRow × Nat × Nat :=
  match resp with
  | ConnResp.thrown => (acc.1, acc.2.1, acc.2.2 + 1)
  | ConnResp.conns false => acc
  | ConnResp.conns true =>
    (upsertRoute acc.1
      ⟨p.1.symbol, p.2.symbol, ⟨p.1.symbol, p.2.symbol, []⟩, "LiFi", now⟩,
     acc.2.1 + 1, acc.2.2)

/-- The pair loop, with `i` indexing the response oracle. -/
def runPairs (now : Nat) (resp : Nat → ConnResp) :
    List (Token × Token) → Nat → (List RouteRow × Nat × Nat) →
    List RouteRow × Nat × Nat
  | [], _, acc => acc
  | p :: rest, i, acc => runPairs now resp rest (i + 1) (processPair now acc p (resp i))

/-- fetchAndCacheLiFiData (lifiService.ts lines 7-110): read the registry,
enumerate all ordered pairs, `DELETE FROM routes_cache` (all of it, with no
provider filter), then probe each pair. The surrounding try/catch only logs,
so the promise always resolves; a failing registry read aborts the run with
the cache untouched. -/
def fetchAndCacheLiFiData (now : Nat) (tokensQ : Except DbErr (List Token))
    (resp : Nat → ConnResp) (tbl : List RouteRow) : RunResult :=
  match tokensQ with
  | Except.error _ => ⟨Outcome.resolved, tbl, 0, 0⟩
  | Except.ok tokens =>
    let pairs := generatePairs Token.symbol tokens
    let r := runPairs now resp pairs 0 ([], 0, 0)
    ⟨Outcome.resolved, r.1, r.2.1, r.2.2⟩

/-- Shape returned by the cached-route readers. -/
structure RoutesReadResult where
  routes : List RoutesData
  lastUpdated : Option Nat
deriving DecidableEq, Repr

/-- getCachedRoutes (lifiService.ts lines 112-136): SELECT every row (no
provider filter) plus MAX(last_updated); any database failure is caught and
converted to an empty list with a null timestamp. The single `Except`
input stands for the outcome of the query sequence. -/
def getCachedRoutes (dbq : Except DbErr (List RouteRow)) : RoutesReadResult :=
  match dbq with
  | Except.error _ => ⟨[], none⟩
  | Except.ok rows =>
    ⟨rows.map (fun r => r.routes_data),
     maxTimestamp (rows.map (fun r => r.last_updated))⟩

end LifiService

namespace SlippageService

/-- getLatestTokenPrices of slippageService.ts (lines 473-505): latest price
per token, keyed lowercase, then the workaround that unconditionally maps
LBTC to WBTC's price whenever WBTC has a truthy price. -/
def getLatestTokenPrices (tbl : List PriceRow) : String → Option ℚ :=
  fun sym =>
    if priceTruthy (latestPrice tbl "wbtc") then
      (if sym = "lbtc" then latestPrice tbl "wbtc" else latestPrice tbl sym)
    else latestPrice tbl sym

/-- Upstream answer of one `POST /v1/advanced/routes` call that resolved:
either a non-empty `routes` array, whose first route carries the two USD
amounts, or no routes. -/
inductive RouteQuote
  | routes (fromAmountUSD toAmountUSD : ℚ)
  | noRoutes
deriving DecidableEq, Repr

/-- Upstream outcome of one quote attempt: resolved, a 429 throw followed by
the outcome of the single retry (`none` means the retry threw), or another
throw (400 or otherwise). -/
inductive AmountResp
  | ok (q : RouteQuote)
  | rateLimited (retry : Option RouteQuote)
  | failed
deriving DecidableEq, Repr

/-- One issued upstream request (an `axios.post` to the quote endpoint),
recording the wei amount `Math.floor(tokenAmount * 10^decimals)` sent. -/
structure ProbeReq where
  pairFrom : String
  pairTo : String
  amountUSD : Nat
  fromAmount : Int
deriving DecidableEq, Repr

/-- Mutable state of a slippage run: the module-global `requestCount`, the
requests issued so far, the `slippage_cache` contents, and the counters. -/
structure RunState where
  requestCount : Nat
  probes : List ProbeReq
  table : List SlipRow
  successCount : Nat
  errorCount : Nat
deriving DecidableEq, Repr

/-- slippageService.ts line 470. -/
def MAX_REQUESTS_PER_HOUR : Nat := 1000

/-- slippageService.ts line 466. -/
def TEST_AMOUNTS : List Nat := [1000, 10000, 50000, 100000]

/-- The `slippageAmounts` record, all buckets initialised to null. -/
structure Buckets where
  a1000 : Option JsNum
  a10000 : Option JsNum
  a50000 : Option JsNum
  a100000 : Option JsNum
deriving DecidableEq, Repr

def Buckets.init : Buckets := ⟨none, none, none, none⟩

def Buckets.get (b : Buckets) (amount : Nat) : Option JsNum :=
  if amount = 1000 then b.a1000
  else if amount = 10000 then b.a10000
  else if amount = 50000 then b.a50000
  else if amount = 100000 then b.a100000
  else none

def Buckets.set (b : Buckets) (amount : Nat) (v : Option JsNum) : Buckets :=
  if amount = 1000 then { b with a1000 := v }
  else if amount = 10000 then { b with a10000 := v }
  else if amount = 50000 then { b with a50000 := v }
  else if amount = 100000 then { b with a100000 := v }
  else b

/-- `Object.values(slippageAmounts).some(a => a !== null)`. -/
def Buckets.hasSome (b : Buckets) : Bool :=
  b.a1000.isSome || b.a10000.isSome || b.a50000.isSome || b.a100000.isSome

/-- Body of one amount probe (slippageService.ts lines 627-800): a falsy
price for the source token records null and issues no request; otherwise the
USD amount is converted through the price, the request issued (counted), and
the answer interpreted; a 429 retries once, but only while the counter is
below the ceiling. `cur` is the current bucket value (untouched when the
upstream reports zero routes or when the 429 retry is skipped). -/
def amountStep (prices : String → Option ℚ) (fromTok toTok : Token)
    (amountUSD : Nat) (resp : AmountResp) (st : RunState) (cur : Option JsNum) :
    RunState × Option JsNum :=
  match prices (lowerStr fromTok.symbol) with
  | none => (st, none)
  | some p =>
    if p = 0 then (st, none)
    else
      let probe : ProbeReq := ⟨fromTok.symbol, toTok.symbol, amountUSD,
        ⌊((amountUSD : ℚ) / p) * (10 : ℚ) ^ fromTok.decimals⌋⟩
      let st1 : RunState := { st with
        requestCount := st.requestCount + 1,
        probes := st.probes ++ [probe] }
      match resp with
      | AmountResp.ok (RouteQuote.routes f t) => (st1, some (computeSlippage f t))
      | AmountResp.ok RouteQuote.noRoutes => (st1, cur)
      | AmountResp.failed => (st1, none)
      | AmountResp.rateLimited retry =>
        -- the code checks `requestCount < MAX_REQUESTS_PER_HOUR` after the
        -- first increment, i.e. st1.requestCount, spelled out here
        if st.requestCount + 1 < MAX_REQUESTS_PER_HOUR then
          let st2 : RunState := { st1 with
            requestCount := st1.requestCount + 1,
            probes := st1.probes ++ [probe] }
          match retry with
          | some (RouteQuote.routes f t) => (st2, some (computeSlippage f t))
          | some RouteQuote.noRoutes => (st2, cur)
          | none => (st2, none)
        else (st1, cur)

/-- The `TEST_AMOUNTS` loop (lines 614-801), stopping as soon as the request
counter has reached the ceiling; the oracle is keyed by the USD amount. -/
def amountsLoop (prices : String → Option ℚ) (fromTok toTok : Token)
    (resp : Nat → AmountResp) :
    List Nat → RunState → Buckets → RunState × Buckets
  | [], st, b => (st, b)
  | a :: rest, st, b =>
    if st.requestCount ≥ MAX_REQUESTS_PER_HOUR then (st, b)
    else
      let r := amountStep prices fromTok toTok a (resp a) st (b.get a)
      amountsLoop prices fromTok toTok resp rest r.1 (b.set a r.2)

/-- The per-pair try block (lines 605-853): run all amounts, INSERT the
resulting row (with the shared calculation timestamp, no provider column),
and count the pair as success iff some bucket is non-null. -/
def pairStep (ts now : Nat) (prices : String → Option ℚ)
    (resp : Nat → AmountResp) (fromTok toTok : Token) (st : RunState) : RunState :=
  let r := amountsLoop prices fromTok toTok resp TEST_AMOUNTS st Buckets.init
  let row : SlipRow :=
    ⟨fromTok.symbol, toTok.symbol, r.2.a1000, r.2.a10000, r.2.a50000,
     r.2.a100000, some ts, none, now⟩
  let st2 : RunState := { r.1 with table := r.1.table ++ [row] }
  if r.2.hasSome then { st2 with successCount := st2.successCount + 1 }
  else { st2 with errorCount := st2.errorCount + 1 }

/-- The pair loop (lines 589-854), breaking once the counter has reached the
ceiling; `i` indexes the per-pair response oracle. -/
def pairsLoop (ts now : Nat) (prices : String → Option ℚ)
    (resps : Nat → Nat → AmountResp) :
    List (Token × Token) → Nat → RunState → RunState
  | [], _, st => st
  | p :: rest, i, st =>
    if st.requestCount ≥ MAX_REQUESTS_PER_HOUR then st
    else pairsLoop ts now prices resps rest (i + 1)
      (pairStep ts now prices (resps i) p.1 p.2 st)

/-- Pair derivation from the cached routes (lines 536-559): dedupe by
direction using the Set of directed keys (a pair is skipped when it or its
reverse was already seen), then look both symbols up in the registry. -/
def derivePairs (tokens : List Token) (routes : List RoutesData) :
    List (Token × Token) :=
  (routes.foldl
    (fun (acc : List (String × String) × List (Token × Token)) rd =>
      if (rd.pairFrom, rd.pairTo) ∈ acc.1 ∨ (rd.pairTo, rd.pairFrom) ∈ acc.1 then
        acc
      else
        match tokens.find? (fun t => t.symbol == rd.pairFrom),
              tokens.find? (fun t => t.symbol == rd.pairTo) with
        | some f, some t => ((rd.pairFrom, rd.pairTo) :: acc.1, acc.2 ++ [(f, t)])
        | _, _ => ((rd.pairFrom, rd.pairTo) :: acc.1, acc.2))
    ([], [])).2

/-- Fallback pairs when no routes are cached (lines 562-578). -/
def fallbackPairs (tokens : List Token) : List (Token × Token) :=
  ([("USDC", "WETH"), ("USDC", "USDT"), ("WETH", "WBTC")] : List (String × String)).foldl
    (fun acc pr =>
      match tokens.find? (fun t => t.symbol == pr.1),
            tokens.find? (fun t => t.symbol == pr.2) with
      | some f, some t => acc ++ [(f, t)]
      | _, _ => acc) []

/-- fetchAndCacheSlippageData (slippageService.ts lines 507-886): on a
failing registry read the outer catch only logs and the promise resolves
with nothing written; otherwise the run stamps one calculation timestamp,
derives the pairs, clears the whole `slippage_cache` table and runs the pair
loop. `requestCount0` is the value of the module-global counter at entry
(zero when the manual trigger reset it). -/
def fetchAndCacheSlippageData (ts now : Nat) (tokensQ : Except DbErr (List Token))
    (priceTable : List PriceRow) (routes : List RoutesData)
    (resps : Nat → Nat → AmountResp) (requestCount0 : Nat)
    (tbl0 : List SlipRow) : Outcome × RunState :=
  match tokensQ with
  | Except.error _ => (Outcome.resolved, ⟨requestCount0, [], tbl0, 0, 0⟩)
  | Except.ok tokens =>
    let prices := getLatestTokenPrices priceTable
    let derived := derivePairs tokens routes
    let pairs := if derived = [] then fallbackPairs tokens else derived
    (Outcome.resolved,
     pairsLoop ts now prices resps pairs 0 ⟨requestCount0, [], [], 0, 0⟩)

/-- `SELECT MAX(calculation_timestamp) ... WHERE calculation_timestamp IS
NOT NULL` (lines 894-897, no provider filter). -/
def latestCalcTimestamp (tbl : List SlipRow) : Option Nat :=
  maxTimestamp (tbl.filterMap (fun r => r.calculation_timestamp))

/-- Row selection of getCachedSlippageData: all rows carrying the latest
calculation timestamp. -/
def selectLatest (tbl : List SlipRow) : List SlipRow :=
  match latestCalcTimestamp tbl with
  | none => []
  | some ts => tbl.filter (fun r => r.calculation_timestamp == some ts)

/-- The `SlippageData` record served to the API layer. -/
structure SlippageData where
  pairFrom : String
  pairTo : String
  a1000 : Option JsNum
  a10000 : Option JsNum
  a50000 : Option JsNum
  a100000 : Option JsNum
deriving DecidableEq, Repr

def rowToData (r : SlipRow) : SlippageData :=
  ⟨r.pair_from, r.pair_to, r.amount_1000, r.amount_10000, r.amount_50000,
   r.amount_100000⟩

structure SlipReadResult where
  slippageData : List SlippageData
  lastUpdated : Option Nat
  calculationTimestamp : Option Nat
deriving DecidableEq, Repr

/-- getCachedSlippageData (slippageService.ts lines 888-946): pick the
maximal calculation timestamp, return exactly the rows stamped with it; on
no timestamped rows, or on any database failure (the `Except` input), return
the empty default. -/
def getCachedSlippageData (dbq : Except DbErr (List SlipRow)) : SlipReadResult :=
  match dbq with
  | Except.error _ => ⟨[], none, none⟩
  | Except.ok tbl =>
    match latestCalcTimestamp tbl with
    | none => ⟨[], none, none⟩
    | some ts =>
      let rows := tbl.filter (fun r => r.calculation_timestamp == some ts)
      ⟨rows.map rowToData, maxTimestamp (rows.map (fun r => r.last_updated)),
       some ts⟩

end SlippageService

namespace OkuService

/-- getLatestTokenPrices of okuService.ts (lines 113-158): latest price per
token, then two workarounds applied to the map: LBTC is unconditionally set
to WBTC's price whenever WBTC has a truthy price, and stXTZ is set to
XTZ times 1.031 when XTZ is truthy and stXTZ is not. -/
def getLatestTokenPrices (tbl : List PriceRow) : String → Option ℚ :=
  fun sym =>
    let m1 : String → Option ℚ := fun s =>
      if priceTruthy (latestPrice tbl "wbtc") then
        (if s = "lbtc" then latestPrice tbl "wbtc" else latestPrice tbl s)
      else latestPrice tbl s
    if priceTruthy (m1 "xtz") && !priceTruthy (m1 "stxtz") then
      (if sym = "stxtz" then (m1 "xtz").map (fun p => p * (1031 / 1000)) else m1 sym)
    else m1 sym

/-- Upstream outcomes of one UpdateQuoteParams call: success, the HTTP 500
carrying "order already completed or canceled", or any other throw. -/
inductive UpdateResp
  | success
  | orderCompleted
  | transientErr
deriving DecidableEq, Repr

/-- Upstream outcomes of one GetNewQuotes call: a resolved answer in which
both routers were (or were not both) fetched, the "order already completed
or canceled" 500, or any other throw. -/
inductive QuotesResp
  | quotes (bothFetched : Bool)
  | orderCompleted
  | transientErr
deriving DecidableEq, Repr

/-- Exit of a retry loop: normal exit or rethrow, with the number of
replacement orders created inside the loop and the unconsumed responses;
`starved` marks an oracle list too short to drive the loop to an exit. -/
inductive LoopOut (ρ : Type)
  | ok (ordersCreated : Nat) (rest : List ρ)
  | thrown (ordersCreated : Nat) (rest : List ρ)
  | starved
deriving DecidableEq, Repr

/-- okuService.ts line 274 / part_007 line 348. -/
def updateParamsMaxRetries : Nat := 3

/-- okuService.ts line 338 / part_007 line 415. -/
def getQuotesMaxRetries : Nat := 5

/-- The UpdateQuoteParams retry loop (okuService.ts lines 276-324, verbatim
again in part_007 lines 350-400): success breaks; the "order already
completed or canceled" signal creates one new order, resets the retry
counter to zero and retries the same request; any other error consumes a
retry and rethrows once the bound is reached. Each consumed list element is
one issued UpdateQuoteParams request. -/
def updateParamsLoop : Nat → Nat → List UpdateResp → LoopOut UpdateResp
  | rc, orders, [] =>
    if rc < updateParamsMaxRetries then LoopOut.starved else LoopOut.ok orders []
  | rc, orders, r :: rest =>
    if rc < updateParamsMaxRetries then
      match r with
      | UpdateResp.success => LoopOut.ok orders rest
      | UpdateResp.orderCompleted => updateParamsLoop 0 (orders + 1) rest
      | UpdateResp.transientErr =>
        if rc + 1 < updateParamsMaxRetries then updateParamsLoop (rc + 1) orders rest
        else LoopOut.thrown orders rest
    else LoopOut.ok orders (r :: rest)

/-- The GetNewQuotes retry loop (okuService.ts lines 340-407, verbatim again
in part_007 lines 417-486): an answer with both routers fetched breaks; an
answer without retries and, at the bound, breaks without quotes; the
"order already completed or canceled" signal creates one new order, resets
the retry counter and retries the same request; other errors consume a retry
and rethrow at the bound. -/
def getQuotesLoop : Nat → Nat → List QuotesResp → LoopOut QuotesResp
  | rc, orders, [] =>
    if rc < getQuotesMaxRetries then LoopOut.starved else LoopOut.ok orders []
  | rc, orders, r :: rest =>
    if rc < getQuotesMaxRetries then
      match r with
      | QuotesResp.quotes true => LoopOut.ok orders rest
      | QuotesResp.quotes false =>
        if rc + 1 < getQuotesMaxRetries then getQuotesLoop (rc + 1) orders rest
        else LoopOut.ok orders rest
      | QuotesResp.orderCompleted => getQuotesLoop 0 (orders + 1) rest
      | QuotesResp.transientErr =>
        if rc + 1 < getQuotesMaxRetries then getQuotesLoop (rc + 1) orders rest
        else LoopOut.thrown orders rest
    else LoopOut.ok orders (r :: rest)

/-- Net per-pair outcome of the Oku probe (the order/update/quotes protocol
of lines 228-446, whose retry behaviour is modelled by the loops above):
the supported and simulation-failed router lists extracted from the final
quotes answer, or a throw that the per-pair catch turns into an error
count. -/
inductive PairOutcome
  | dexes (supported simFailed : List String)
  | thrown
deriving DecidableEq, Repr

/-- Observable result of an Oku route-fetch run. -/
structure RunResult where
  outcome : Outcome
  table : List RouteRow
  successCount : Nat
  errorCount : Nat
deriving DecidableEq, Repr

/-- Body of the per-pair loop of fetchAndCacheOkuData (lines 228-499): a
falsy source-token price skips the pair entirely (no write, no count);
otherwise the router lists are combined (simulation failures marked), a
non-empty list upserts an Oku row and counts a success, an empty list writes
nothing, and a throw counts an error. -/
def processPair (now : Nat) (prices : String → Option ℚ)
    (acc : List RouteRow × Nat × Nat) (p : Token × Token) (out : PairOutcome) :
    List RouteRow × Nat × Nat :=
  if priceTruthy (prices (lowerStr p.1.symbol)) then
    match out with
    | PairOutcome.thrown => (acc.1, acc.2.1, acc.2.2 + 1)
    | PairOutcome.dexes s f =>
      let all := s ++ f.map (fun d => d ++ "✗")
      if all = [] then acc
      else
        (upsertRoute acc.1
          ⟨p.1.symbol, p.2.symbol, ⟨p.1.symbol, p.2.symbol, all⟩, "Oku", now⟩,
         acc.2.1 + 1, acc.2.2)
  else acc

def runPairs (now : Nat) (prices : String → Option ℚ)
    (oracle : Nat → PairOutcome) :
    List (Token × Token) → Nat → (List RouteRow × Nat × Nat) →
    List RouteRow × Nat × Nat
  | [], _, acc => acc
  | p :: rest, i, acc =>
    runPairs now prices oracle rest (i + 1) (processPair now prices acc p (oracle i))

/-- fetchAndCacheOkuData (okuService.ts lines 160-508): read the registry
and the prices, enumerate all ordered pairs, and probe each pair. There is
no DELETE: the run only upserts rows keyed with provider 'Oku'. The outer
catch only logs, so the promise always resolves. -/
def fetchAndCacheOkuData (now : Nat) (tokensQ : Except DbErr (List Token))
    (priceTable : List PriceRow) (oracle : Nat → PairOutcome)
    (tbl : List RouteRow) : RunResult :=
  match tokensQ with
  | Except.error _ => ⟨Outcome.resolved, tbl, 0, 0⟩
  | Except.ok tokens =>
    let prices := getLatestTokenPrices priceTable
    let pairs := generatePairs Token.symbol tokens
    let r := runPairs now prices oracle pairs 0 (tbl, 0, 0)
    ⟨Outcome.resolved, r.1, r.2.1, r.2.2⟩

/-- getCachedOkuRoutes (okuService.ts lines 510-534): SELECT the rows with
provider 'Oku' plus their MAX(last_updated); any database failure is caught
and converted to the empty default. -/
def getCachedOkuRoutes (dbq : Except DbErr (List RouteRow)) :
    LifiService.RoutesReadResult :=
  match dbq with
  | Except.error _ => ⟨[], none⟩
  | Except.ok rows =>
    let okuRows := rows.filter (fun r => r.provider == "Oku")
    ⟨okuRows.map (fun r => r.routes_data),
     maxTimestamp (okuRows.map (fun r => r.last_updated))⟩

end OkuService

namespace OkuSlippageService

/-- part_007 line 21. -/
def MAX_REQUESTS_PER_HOUR : Nat := 500

/-- part_007 line 17. -/
def TEST_AMOUNTS : List Nat := [1000, 10000, 50000, 100000]

/-- getLatestTokenPrices of part_007 (lines 87-132) is the same function as
the okuService.ts one, workarounds included. -/
def getLatestTokenPrices : List PriceRow → String → Option ℚ :=
  OkuService.getLatestTokenPrices

/-- Bucket value computed from the selected best quote (part_007 lines
507-548). `best` summarises the quote-selection loop: the parsed in / out
amounts of the first fetched, error-free, simulation-clean quote whose
amount strings are non-empty (note the string "0" is truthy there and
parses to 0). No usable quote, or a falsy output-token price, records null;
otherwise the slippage of `inAmount * tokenPrice` versus
`outAmount * outTokenPrice` is stored, with a zero input USD value flowing
into the division unguarded. -/
def okuBucketValue (tokenPrice : ℚ) (outTokenPrice : Option ℚ)
    (best : Option (ℚ × ℚ)) : Option JsNum :=
  match best with
  | none => none
  | some q =>
    match outTokenPrice with
    | none => none
    | some op =>
      if op = 0 then none
      else some (computeSlippage (q.1 * tokenPrice) (q.2 * op))

/-- Net outcome of one amount probe's order protocol (create / update /
quotes, whose retry structure is OkuService.updateParamsLoop and
OkuService.getQuotesLoop): the selected best quote of the final answer, or
a throw, which the per-amount catch records as null. -/
inductive OkuAmountResp
  | quote (best : Option (ℚ × ℚ))
  | thrown
deriving DecidableEq, Repr

/-- One counted Oku slippage request, carrying
`parseFloat((amountUSD / price).toFixed(decimals))`. -/
structure OkuProbe where
  pairFrom : String
  pairTo : String
  amountUSD : Nat
  tokenAmount : ℚ
deriving DecidableEq, Repr

/-- Mutable state of an Oku slippage run. -/
structure RunState where
  requestCount : Nat
  probes : List OkuProbe
  table : List SlipRow
  successCount : Nat
  errorCount : Nat
deriving DecidableEq, Repr

/-- Body of one amount probe (part_007 lines 286-560): a falsy source price
records null without a request; otherwise the amount is converted and
rounded to the token's decimals (`toFixed` rounds half up), the request is
counted, and the protocol outcome is interpreted through okuBucketValue. -/
def amountStep (prices : String → Option ℚ) (fromTok toTok : Token)
    (amountUSD : Nat) (resp : OkuAmountResp) (st : RunState) :
    RunState × Option JsNum :=
  match prices (lowerStr fromTok.symbol) with
  | none => (st, none)
  | some p =>
    if p = 0 then (st, none)
    else
      let ta : ℚ :=
        ((⌊((amountUSD : ℚ) / p) * 10 ^ fromTok.decimals + 1/2⌋ : ℤ) : ℚ) /
          10 ^ fromTok.decimals
      let st1 : RunState := { st with
        requestCount := st.requestCount + 1,
        probes := st.probes ++ [⟨fromTok.symbol, toTok.symbol, amountUSD, ta⟩] }
      match resp with
      | OkuAmountResp.thrown => (st1, none)
      | OkuAmountResp.quote best =>
        (st1, okuBucketValue p (prices (lowerStr toTok.symbol)) best)

/-- The `TEST_AMOUNTS` loop (part_007 lines 272-561) with its per-amount
ceiling check. -/
def amountsLoop (prices : String → Option ℚ) (fromTok toTok : Token)
    (resp : Nat → OkuAmountResp) :
    List Nat → RunState → SlippageService.Buckets →
    RunState × SlippageService.Buckets
  | [], st, b => (st, b)
  | a :: rest, st, b =>
    if st.requestCount ≥ MAX_REQUESTS_PER_HOUR then (st, b)
    else
      let r := amountStep prices fromTok toTok a (resp a) st
      amountsLoop prices fromTok toTok resp rest r.1 (b.set a r.2)

/-- The per-pair try block (part_007 lines 263-607): run all amounts, INSERT
the row with the shared calculation timestamp and provider 'Oku', and count
success iff some bucket is non-null. -/
def pairStep (ts now : Nat) (prices : String → Option ℚ)
    (resp : Nat → OkuAmountResp) (fromTok toTok : Token) (st : RunState) :
    RunState :=
  let r := amountsLoop prices fromTok toTok resp TEST_AMOUNTS st
    SlippageService.Buckets.init
  let row : SlipRow :=
    ⟨fromTok.symbol, toTok.symbol, r.2.a1000, r.2.a10000, r.2.a50000,
     r.2.a100000, some ts, some "Oku", now⟩
  let st2 : RunState := { r.1 with table := r.1.table ++ [row] }
  if r.2.hasSome then { st2 with successCount := st2.successCount + 1 }
  else { st2 with errorCount := st2.errorCount + 1 }

/-- The pair loop (part_007 lines 247-615) with its per-pair ceiling
check. -/
def pairsLoop (ts now : Nat) (prices : String → Option ℚ)
    (resps : Nat → Nat → OkuAmountResp) :
    List (Token × Token) → Nat → RunState → RunState
  | [], _, st => st
  | p :: rest, i, st =>
    if st.requestCount ≥ MAX_REQUESTS_PER_HOUR then st
    else pairsLoop ts now prices resps rest (i + 1)
      (pairStep ts now prices (resps i) p.1 p.2 st)

/-- fetchAndCacheOkuSlippageData (part_007 lines 160-647): on a failing
registry read the outer catch only logs and the promise resolves with the
cache untouched; otherwise pairs are derived from the cached Oku routes
(the derivation code is the same as slippageService.ts, so its model is
reused), the Oku slippage rows are deleted, and the pair loop runs. -/
def fetchAndCacheOkuSlippageData (ts now : Nat)
    (tokensQ : Except DbErr (List Token)) (priceTable : List PriceRow)
    (routesTable : List RouteRow) (resps : Nat → Nat → OkuAmountResp)
    (requestCount0 : Nat) (tbl0 : List SlipRow) : Outcome × RunState :=
  match tokensQ with
  | Except.error _ => (Outcome.resolved, ⟨requestCount0, [], tbl0, 0, 0⟩)
  | Except.ok tokens =>
    let prices := getLatestTokenPrices priceTable
    let okuRoutes :=
      (routesTable.filter (fun r => r.provider == "Oku")).map
        (fun r => r.routes_data)
    let derived := SlippageService.derivePairs tokens okuRoutes
    let pairs :=
      if derived = [] then SlippageService.fallbackPairs tokens else derived
    let cleared := tbl0.filter (fun r => !(r.provider == some "Oku"))
    (Outcome.resolved,
     pairsLoop ts now prices resps pairs 0 ⟨requestCount0, [], cleared, 0, 0⟩)

/-- `SELECT MAX(calculation_timestamp) ... WHERE calculation_timestamp IS
NOT NULL AND provider = 'Oku'` (part_007 lines 656-658). -/
def latestCalcTimestampOku (tbl : List SlipRow) : Option Nat :=
  maxTimestamp
    ((tbl.filter (fun r => r.provider == some "Oku")).filterMap
      (fun r => r.calculation_timestamp))

/-- Row selection of getCachedOkuSlippageData: the Oku rows carrying the
latest Oku calculation timestamp. -/
def selectLatestOku (tbl : List SlipRow) : List SlipRow :=
  match latestCalcTimestampOku tbl with
  | none => []
  | some ts =>
    tbl.filter (fun r =>
      r.calculation_timestamp == some ts && r.provider == some "Oku")

/-- getCachedOkuSlippageData (part_007 lines 649-708): pick the maximal Oku
calculation timestamp, return exactly the Oku rows stamped with it; on no
timestamped Oku rows, or on any database failure, the empty default. -/
def getCachedOkuSlippageData (dbq : Except DbErr (List SlipRow)) :
    SlippageService.SlipReadResult :=
  match dbq with
  | Except.error _ => ⟨[], none, none⟩
  | Except.ok tbl =>
    match latestCalcTimestampOku tbl with
    | none => ⟨[], none, none⟩
    | some ts =>
      let rows := tbl.filter (fun r =>
        r.calculation_timestamp == some ts && r.provider == some "Oku")
      ⟨rows.map SlippageService.rowToData,
       maxTimestamp (rows.map (fun r => r.last_updated)), some ts⟩

end OkuSlippageService

/-- Two-run table used by the C1 witness: one older row and one newer. -/
def c1rowOld : SlipRow := ⟨"USDC", "WETH", none, none, none, none, some 1, none, 5⟩

def c1rowNew : SlipRow := ⟨"USDC", "WETH", none, none, none, none, some 2, none, 6⟩

def c1tbl : List SlipRow := [c1rowOld, c1rowNew]

/-- Pre-existing Oku row used by the C5 counterexample. -/
def c5okuRow : RouteRow := ⟨"USDC", "WETH", ⟨"USDC", "WETH", ["usor"]⟩, "Oku", 3⟩

/-- Pre-existing LiFi row used by the C5 witness. -/
def c5lifiRow : RouteRow := ⟨"USDC", "WETH", ⟨"USDC", "WETH", []⟩, "LiFi", 1⟩

/-- Price table for the C6 counterexample: WBTC has a price, LBTC has no
row at all. -/
def c6priceTable : List PriceRow := [⟨"wbtc", 1, 10⟩]

def c6lbtc : Token := ⟨"LBTC", "0xlbtc", 8⟩

def c6weth : Token := ⟨"WETH", "0xweth", 18⟩

/-- Concrete inputs for the C8 witness. -/
def c8from : Token := ⟨"USDC", "0xusdc", 6⟩

def c8to : Token := ⟨"WETH", "0xweth", 18⟩

def c8row : SlipRow := ⟨"USDC", "WETH", none, none, none, none, some 7, none, 8⟩


theorem occ_append {α : Type} [DecidableEq α] (a : α) (l₁ l₂ : List α) :
    occ a (l₁ ++ l₂) = occ a l₁ + occ a l₂ := by
  induction l₁ with
  | nil => simp [occ]
  | cons b l ih => simp [occ, ih]; omega

theorem occ_eq_zero_of_not_mem {α : Type} [DecidableEq α] {a : α} {l : List α}
    (h : a ∉ l) : occ a l = 0 := by
  induction l with
  | nil => rfl
  | cons b l ih =>
    simp only [List.mem_cons, not_or] at h
    simp [occ, h.1, ih h.2]

theorem occ_eq_one_of_mem_nodup {α : Type} [DecidableEq α] {a : α} {l : List α}
    (hm : a ∈ l) (hn : l.Nodup) : occ a l = 1 := by
  induction l with
  | nil => simp at hm
  | cons b l ih =>
    rcases List.mem_cons.mp hm with h | h
    · subst h
      simp [occ, occ_eq_zero_of_not_mem (List.nodup_cons.mp hn).1]
    · have hab : a ≠ b := by
        rintro rfl; exact (List.nodup_cons.mp hn).1 h
      simp [occ, hab, ih h (List.nodup_cons.mp hn).2]

theorem maxTimestamp_eq_none {l : List Nat} (h : maxTimestamp l = none) : l = [] := by
  cases l with
  | nil => rfl
  | cons t ts =>
    simp only [maxTimestamp] at h
    cases hts : maxTimestamp ts <;> simp [hts] at h

theorem maxTimestamp_spec {l : List Nat} {m : Nat} (h : maxTimestamp l = some m) :
    m ∈ l ∧ ∀ x ∈ l, x ≤ m := by
  induction l generalizing m with
  | nil => simp [maxTimestamp] at h
  | cons t ts ih =>
    cases hts : maxTimestamp ts with
    | none =>
      have hnil : ts = [] := maxTimestamp_eq_none hts
      subst hnil
      simp only [maxTimestamp] at h
      have hm : t = m := by simpa using h
      subst hm
      simp
    | some m' =>
      simp only [maxTimestamp, hts] at h
      have hm : max t m' = m := by simpa using h
      obtain ⟨hmem, hle⟩ := ih hts
      subst hm
      refine ⟨?_, ?_⟩
      · rcases le_total m' t with hc | hc
        · rw [max_eq_left hc]
          exact List.mem_cons_self t ts
        · rw [max_eq_right hc]
          exact List.mem_cons_of_mem t hmem
      · intro x hx
        rcases List.mem_cons.mp hx with rfl | hx
        · exact le_max_left _ _
        · exact le_trans (hle x hx) (le_max_right _ _)

theorem maxTimestamp_isSome_of_mem {l : List Nat} {x : Nat} (h : x ∈ l) :
    ∃ m, maxTimestamp l = some m := by
  cases l with
  | nil => simp at h
  | cons t ts =>
    simp only [maxTimestamp]
    cases maxTimestamp ts with
    | none => exact ⟨t, rfl⟩
    | some m => exact ⟨max t m, rfl⟩

theorem pairKey_eq_min_max {β : Type} [LinearOrder β] (a b : β) :
    pairKey a b = (a ⊓ b, a ⊔ b) := by
  by_cases h : a ≤ b
  · simp [pairKey, h, inf_eq_left.mpr h, sup_eq_right.mpr h]
  · have h2 : b ≤ a := le_of_not_le h
    simp [pairKey, h, inf_eq_right.mpr h2, sup_eq_left.mpr h2]

theorem pairKey_eq_iff {β : Type} [LinearOrder β] (a b c d : β) :
    pairKey a b = pairKey c d ↔ (a = c ∧ b = d) ∨ (a = d ∧ b = c) := by
  rw [pairKey_eq_min_max, pairKey_eq_min_max]
  constructor
  · intro h
    have h1 : a ⊓ b = c ⊓ d := congrArg Prod.fst h
    have h2 : a ⊔ b = c ⊔ d := congrArg Prod.snd h
    rcases le_total a b with hab | hab <;> rcases le_total c d with hcd | hcd
    · rw [inf_eq_left.mpr hab, inf_eq_left.mpr hcd] at h1
      rw [sup_eq_right.mpr hab, sup_eq_right.mpr hcd] at h2
      exact Or.inl ⟨h1, h2⟩
    · rw [inf_eq_left.mpr hab, inf_eq_right.mpr hcd] at h1
      rw [sup_eq_right.mpr hab, sup_eq_left.mpr hcd] at h2
      exact Or.inr ⟨h1, h2⟩
    · rw [inf_eq_right.mpr hab, inf_eq_left.mpr hcd] at h1
      rw [sup_eq_left.mpr hab, sup_eq_right.mpr hcd] at h2
      exact Or.inr ⟨h2, h1⟩
    · rw [inf_eq_right.mpr hab, inf_eq_right.mpr hcd] at h1
      rw [sup_eq_left.mpr hab, sup_eq_left.mpr hcd] at h2
      exact Or.inl ⟨h2, h1⟩
  · rintro (⟨rfl, rfl⟩ | ⟨rfl, rfl⟩)
    · rfl
    · rw [inf_comm, sup_comm]

theorem pairKey_comm {β : Type} [LinearOrder β] (a b : β) :
    pairKey a b = pairKey b a := by
  rw [pairKey_eq_min_max, pairKey_eq_min_max, inf_comm, sup_comm]

theorem key_injOn_of_nodup_map {α β : Type} {key : α → β} {l : List α}
    (h : (l.map key).Nodup) :
    ∀ u ∈ l, ∀ v ∈ l, key u = key v → u = v := by
  induction l with
  | nil => intro u hu; simp at hu
  | cons a l ih =>
    simp only [List.map_cons, List.nodup_cons] at h
    intro u hu v hv he
    rcases List.mem_cons.mp hu with h1 | h1
    · rcases List.mem_cons.mp hv with h2 | h2
      · rw [h1, h2]
      · have hmem : key a ∈ List.map key l := by
          rw [← h1, he]; exact List.mem_map_of_mem key h2
        exact absurd hmem h.1
    · rcases List.mem_cons.mp hv with h2 | h2
      · have hmem : key a ∈ List.map key l := by
          rw [← h2, ← he]; exact List.mem_map_of_mem key h1
        exact absurd hmem h.1
      · exact ih h.2 u h1 v h2 he

theorem innerLoop_noChange {α β : Type} [LinearOrder β] (key : α → β) (x : α)
    (l : List α) (st : EnumState α β)
    (h : ∀ u ∈ l, key x = key u ∨ pairKey (key x) (key u) ∈ st.seen) :
    innerLoop key x l st = st := by
  induction l with
  | nil => rfl
  | cons u rest ih =>
    have hrest : ∀ v ∈ rest, key x = key v ∨ pairKey (key x) (key v) ∈ st.seen :=
      fun v hv => h v (List.mem_cons_of_mem u hv)
    rcases h u (List.mem_cons_self u rest) with h1 | h2
    · simp only [innerLoop, if_pos h1]
      exact ih hrest
    · by_cases h1 : key x = key u
      · simp only [innerLoop, if_pos h1]
        exact ih hrest
      · simp only [innerLoop, if_neg h1, if_pos h2]
        exact ih hrest

theorem innerLoop_emit {α β : Type} [LinearOrder β] (key : α → β) (x : α)
    (l : List α) (st : EnumState α β)
    (hne : ∀ u ∈ l, key x ≠ key u)
    (hns : ∀ u ∈ l, pairKey (key x) (key u) ∉ st.seen)
    (hnd : (l.map key).Nodup) :
    (innerLoop key x l st).tokenPairs = st.tokenPairs ++ pairsWith x l ∧
    ∀ p, p ∈ (innerLoop key x l st).seen ↔
      p ∈ st.seen ∨ ∃ u ∈ l, p = pairKey (key x) (key u) := by
  induction l generalizing st with
  | nil => simp [innerLoop, pairsWith]
  | cons u rest ih =>
    have h1 : key x ≠ key u := hne u (List.mem_cons_self u rest)
    have h2 : pairKey (key x) (key u) ∉ st.seen := hns u (List.mem_cons_self u rest)
    have hstep : innerLoop key x (u :: rest) st =
        innerLoop key x rest
          ⟨pairKey (key x) (key u) :: st.seen, st.tokenPairs ++ [(x, u), (u, x)]⟩ := by
      simp only [innerLoop, if_neg h1, if_neg h2]
    simp only [List.map_cons, List.nodup_cons] at hnd
    have hns' : ∀ v ∈ rest,
        pairKey (key x) (key v) ∉
          (pairKey (key x) (key u) :: st.seen : List (β × β)) := by
      intro v hv
      simp only [List.mem_cons, not_or]
      refine ⟨?_, hns v (List.mem_cons_of_mem u hv)⟩
      intro hcon
      rcases (pairKey_eq_iff _ _ _ _).mp hcon with ⟨_, hvu⟩ | ⟨hxu, _⟩
      · exact hnd.1 (hvu ▸ List.mem_map_of_mem key hv)
      · exact h1 hxu
    obtain ⟨hp, hs⟩ := ih
      ⟨pairKey (key x) (key u) :: st.seen, st.tokenPairs ++ [(x, u), (u, x)]⟩
      (fun v hv => hne v (List.mem_cons_of_mem u hv)) hns' hnd.2
    constructor
    · rw [hstep, hp]
      simp [pairsWith]
    · intro p
      rw [hstep, hs p]
      simp only [List.mem_cons]
      constructor
      · rintro ((hk | hmem) | ⟨v, hv, hpv⟩)
        · exact Or.inr ⟨u, Or.inl rfl, hk⟩
        · exact Or.inl hmem
        · exact Or.inr ⟨v, Or.inr hv, hpv⟩
      · rintro (hmem | ⟨v, hv, hpv⟩)
        · exact Or.inl (Or.inr hmem)
        · rcases hv with rfl | hv
          · exact Or.inl (Or.inl hpv)
          · exact Or.inr ⟨v, hv, hpv⟩

theorem innerLoop_append {α β : Type} [LinearOrder β] (key : α → β) (x : α)
    (l₁ l₂ : List α) (st : EnumState α β) :
    innerLoop key x (l₁ ++ l₂) st = innerLoop key x l₂ (innerLoop key x l₁ st) := by
  induction l₁ generalizing st with
  | nil => rfl
  | cons u rest ih =>
    by_cases h1 : key x = key u
    · simp only [List.cons_append, innerLoop, if_pos h1]
      exact ih st
    · by_cases h2 : pairKey (key x) (key u) ∈ st.seen
      · simp only [List.cons_append, innerLoop, if_neg h1, if_pos h2]
        exact ih st
      · simp only [List.cons_append, innerLoop, if_neg h1, if_neg h2]
        exact ih _

theorem outerLoop_spec {α β : Type} [LinearOrder β] (key : α → β) (tokens : List α)
    (hnd : (tokens.map key).Nodup) :
    ∀ (pending done : List α) (st : EnumState α β),
      tokens = done ++ pending →
      SeenInv key tokens done st.seen →
      (outerLoop key tokens pending st).tokenPairs = st.tokenPairs ++ specPairs pending := by
  intro pending
  induction pending with
  | nil =>
    intro done st _ _
    simp [outerLoop, specPairs]
  | cons x rest ih =>
    intro done st htok hinv
    have hmapnd := hnd
    rw [htok, List.map_append, List.nodup_append] at hmapnd
    obtain ⟨nd1, nd2, disj⟩ := hmapnd
    simp only [List.map_cons, List.nodup_cons] at nd2
    have hxtok : x ∈ tokens := by
      rw [htok]; exact List.mem_append_right _ (List.mem_cons_self _ _)
    have hxdone : x ∉ done := by
      intro hx
      exact disj (List.mem_map_of_mem key hx) (List.mem_cons_self _ _)
    have hrestdone : ∀ v ∈ rest, v ∉ done := by
      intro v hv hvd
      exact disj (List.mem_map_of_mem key hvd)
        (List.mem_cons_of_mem _ (List.mem_map_of_mem key hv))
    have hnex : ∀ v ∈ rest, key x ≠ key v := by
      intro v hv hk
      exact nd2.1 (hk ▸ List.mem_map_of_mem key hv)
    have hresttok : ∀ v ∈ rest, v ∈ tokens := by
      intro v hv
      rw [htok]
      exact List.mem_append_right _ (List.mem_cons_of_mem _ hv)
    have hdone : innerLoop key x done st = st := by
      apply innerLoop_noChange
      intro u hu
      by_cases hk : key x = key u
      · exact Or.inl hk
      · refine Or.inr ?_
        have hu' : u ∈ tokens := by rw [htok]; exact List.mem_append_left _ hu
        exact (hinv x u hxtok hu' hk).mpr (Or.inr hu)
    have hstep : innerLoop key x tokens st = innerLoop key x rest st := by
      rw [htok, innerLoop_append, hdone]
      simp only [innerLoop, eq_self_iff_true, if_true]
    have hns : ∀ v ∈ rest, pairKey (key x) (key v) ∉ st.seen := by
      intro v hv hmem
      rcases (hinv x v hxtok (hresttok v hv) (hnex v hv)).mp hmem with hc | hc
      · exact hxdone hc
      · exact hrestdone v hv hc
    obtain ⟨hp, hs⟩ := innerLoop_emit key x rest st hnex hns nd2.2
    have hinv' : SeenInv key tokens (done ++ [x]) (innerLoop key x rest st).seen := by
      intro u v hu hv hk
      rw [hs (pairKey (key u) (key v))]
      constructor
      · rintro (hmem | ⟨w, hw, hpw⟩)
        · rcases (hinv u v hu hv hk).mp hmem with hc | hc
          · exact Or.inl (List.mem_append_left _ hc)
          · exact Or.inr (List.mem_append_left _ hc)
        · rcases (pairKey_eq_iff _ _ _ _).mp hpw with ⟨hux, _⟩ | ⟨_, hvx⟩
          · have : u = x := key_injOn_of_nodup_map hnd u hu x hxtok hux
            exact Or.inl (List.mem_append_right _ (this ▸ List.mem_cons_self _ _))
          · have : v = x := key_injOn_of_nodup_map hnd v hv x hxtok hvx
            exact Or.inr (List.mem_append_right _ (this ▸ List.mem_cons_self _ _))
      · have hcase : ∀ w, w ∈ tokens → w ∈ done ++ [x] →
            w ∈ done ∨ w = x := by
          intro w _ hw
          rcases List.mem_append.mp hw with hc | hc
          · exact Or.inl hc
          · exact Or.inr (List.mem_singleton.mp hc)
        rintro (hud | hvd)
        · rcases hcase u hu hud with hc | hc
          · exact Or.inl ((hinv u v hu hv hk).mpr (Or.inl hc))
          · subst hc
            rw [htok] at hv
            rcases List.mem_append.mp hv with hvc | hvc
            · exact Or.inl ((hinv u v hu (by rw [htok]; exact List.mem_append_left _ hvc) hk).mpr (Or.inr hvc))
            · rcases List.mem_cons.mp hvc with hvc | hvc
              · exact absurd (hvc ▸ rfl) hk
              · exact Or.inr ⟨v, hvc, rfl⟩
        · rcases hcase v hv hvd with hc | hc
          · exact Or.inl ((hinv u v hu hv hk).mpr (Or.inr hc))
          · subst hc
            rw [htok] at hu
            rcases List.mem_append.mp hu with huc | huc
            · exact Or.inl ((hinv u v (by rw [htok]; exact List.mem_append_left _ huc) hv hk).mpr (Or.inl huc))
            · rcases List.mem_cons.mp huc with huc | huc
              · exact absurd (huc ▸ rfl) hk
              · exact Or.inr ⟨u, huc, pairKey_comm _ _⟩
    have hrec := ih (done ++ [x]) (innerLoop key x rest st)
      (by rw [htok]; simp) hinv'
    calc (outerLoop key tokens (x :: rest) st).tokenPairs
        = (outerLoop key tokens rest (innerLoop key x tokens st)).tokenPairs := rfl
      _ = (outerLoop key tokens rest (innerLoop key x rest st)).tokenPairs := by rw [hstep]
      _ = (innerLoop key x rest st).tokenPairs ++ specPairs rest := hrec
      _ = st.tokenPairs ++ pairsWith x rest ++ specPairs rest := by rw [hp]
      _ = st.tokenPairs ++ specPairs (x :: rest) := by
          rw [List.append_assoc]; rfl

theorem generatePairs_eq_specPairs {α β : Type} [LinearOrder β] (key : α → β)
    (tokens : List α) (hnd : (tokens.map key).Nodup) :
    generatePairs key tokens = specPairs tokens := by
  unfold generatePairs
  have h := outerLoop_spec key tokens hnd tokens [] ⟨[], []⟩ rfl
    (by intro u v _ _ _; simp)
  simpa using h

theorem pairsWith_length {α : Type} (t : α) (l : List α) :
    (pairsWith t l).length = 2 * l.length := by
  induction l with
  | nil => rfl
  | cons u us ih => simp [pairsWith, ih]; omega

theorem specPairs_length {α : Type} (l : List α) :
    (specPairs l).length = l.length * (l.length - 1) := by
  induction l with
  | nil => rfl
  | cons t ts ih =>
    simp only [specPairs, List.length_append, pairsWith_length, ih, List.length_cons]
    cases hn : ts.length with
    | zero => simp
    | succ m => simp; ring

theorem mem_pairsWith {α : Type} {p : α × α} {t : α} {l : List α}
    (h : p ∈ pairsWith t l) : ∃ u ∈ l, p = (t, u) ∨ p = (u, t) := by
  induction l with
  | nil => simp [pairsWith] at h
  | cons u us ih =>
    rcases List.mem_cons.mp h with h1 | h1
    · exact ⟨u, List.mem_cons_self u us, Or.inl h1⟩
    · rcases List.mem_cons.mp h1 with h2 | h2
      · exact ⟨u, List.mem_cons_self u us, Or.inr h2⟩
      · obtain ⟨v, hv, hp⟩ := ih h2
        exact ⟨v, List.mem_cons_of_mem u hv, hp⟩

theorem mem_specPairs {α : Type} {p : α × α} {l : List α}
    (h : p ∈ specPairs l) : p.1 ∈ l ∧ p.2 ∈ l := by
  induction l with
  | nil => simp [specPairs] at h
  | cons t ts ih =>
    rcases List.mem_append.mp h with h1 | h1
    · obtain ⟨u, hu, hp | hp⟩ := mem_pairsWith h1
      · subst hp
        exact ⟨List.mem_cons_self t ts, List.mem_cons_of_mem t hu⟩
      · subst hp
        exact ⟨List.mem_cons_of_mem t hu, List.mem_cons_self t ts⟩
    · obtain ⟨h1', h2'⟩ := ih h1
      exact ⟨List.mem_cons_of_mem t h1', List.mem_cons_of_mem t h2'⟩

theorem specPairs_ne {α : Type} {l : List α} (hnd : l.Nodup) :
    ∀ p ∈ specPairs l, p.1 ≠ p.2 := by
  induction l with
  | nil => intro p hp; simp [specPairs] at hp
  | cons t ts ih =>
    intro p hp
    obtain ⟨hts, hnd'⟩ := List.nodup_cons.mp hnd
    rcases List.mem_append.mp hp with h1 | h1
    · obtain ⟨u, hu, hp2 | hp2⟩ := mem_pairsWith h1
      · subst hp2
        intro hc
        have hc2 : t = u := hc
        exact hts (hc2 ▸ hu)
      · subst hp2
        intro hc
        have hc2 : u = t := hc
        exact hts (hc2 ▸ hu)
    · exact ih hnd' p h1

theorem occ_pairsWith_off {α : Type} [DecidableEq α] {a b t : α} (l : List α)
    (ha : a ≠ t) (hb : b ≠ t) : occ (a, b) (pairsWith t l) = 0 := by
  induction l with
  | nil => rfl
  | cons u us ih =>
    have h1 : (a, b) ≠ (t, u) := by
      intro hc; exact ha (congrArg Prod.fst hc)
    have h2 : (a, b) ≠ (u, t) := by
      intro hc; exact hb (congrArg Prod.snd hc)
    simp [pairsWith, occ, h1, h2, ih]

theorem occ_pairsWith_left {α : Type} [DecidableEq α] {t b : α} (l : List α)
    (hb : b ≠ t) : occ (t, b) (pairsWith t l) = occ b l := by
  induction l with
  | nil => rfl
  | cons u us ih =>
    have h2 : (t, b) ≠ (u, t) := by
      intro hc; exact hb (congrArg Prod.snd hc)
    by_cases h1 : b = u
    · subst h1
      simp [pairsWith, occ, h2, ih]
    · have h1' : (t, b) ≠ (t, u) := by
        intro hc; exact h1 (congrArg Prod.snd hc)
      simp [pairsWith, occ, h1, h1', h2, ih]

theorem occ_pairsWith_right {α : Type} [DecidableEq α] {a t : α} (l : List α)
    (ha : a ≠ t) : occ (a, t) (pairsWith t l) = occ a l := by
  induction l with
  | nil => rfl
  | cons u us ih =>
    have h1 : (a, t) ≠ (t, u) := by
      intro hc; exact ha (congrArg Prod.fst hc)
    by_cases h2 : a = u
    · subst h2
      simp [pairsWith, occ, h1, ih]
    · have h2' : (a, t) ≠ (u, t) := by
        intro hc; exact h2 (congrArg Prod.fst hc)
      simp [pairsWith, occ, h1, h2, h2', ih]

theorem occ_specPairs_zero_of_not_mem {α : Type} [DecidableEq α] {a b : α}
    {l : List α} (h : a ∉ l ∨ b ∉ l) : occ (a, b) (specPairs l) = 0 := by
  apply occ_eq_zero_of_not_mem
  intro hmem
  obtain ⟨h1, h2⟩ := mem_specPairs hmem
  rcases h with h | h
  · exact h h1
  · exact h h2

theorem occ_specPairs_eq_one {α : Type} [DecidableEq α] {a b : α} {l : List α}
    (hab : a ≠ b) (ha : a ∈ l) (hb : b ∈ l) (hnd : l.Nodup) :
    occ (a, b) (specPairs l) = 1 := by
  induction l with
  | nil => simp at ha
  | cons t ts ih =>
    obtain ⟨hts, hnd'⟩ := List.nodup_cons.mp hnd
    rw [specPairs, occ_append]
    by_cases hat : a = t
    · subst hat
      have hbts : b ∈ ts := by
        rcases List.mem_cons.mp hb with hc | hc
        · exact absurd hc.symm hab
        · exact hc
      rw [occ_pairsWith_left ts (fun hc => hab hc.symm),
          occ_eq_one_of_mem_nodup hbts hnd',
          occ_specPairs_zero_of_not_mem (Or.inl hts)]
    · by_cases hbt : b = t
      · subst hbt
        have hats : a ∈ ts := by
          rcases List.mem_cons.mp ha with hc | hc
          · exact absurd hc hat
          · exact hc
        rw [occ_pairsWith_right ts hat,
            occ_eq_one_of_mem_nodup hats hnd',
            occ_specPairs_zero_of_not_mem (Or.inr hts)]
      · have hats : a ∈ ts := by
          rcases List.mem_cons.mp ha with hc | hc
          · exact absurd hc hat
          · exact hc
        have hbts : b ∈ ts := by
          rcases List.mem_cons.mp hb with hc | hc
          · exact absurd hc hbt
          · exact hc
        rw [occ_pairsWith_off ts hat hbt, ih hats hbts hnd']

/-- C9: for a registry whose symbols (the `key` images, the `tokens` table
primary keys) are pairwise distinct, the exhaustive enumeration yields
exactly N times (N minus 1) ordered pairs, contains no self-pair, and
contains every ordered pair of distinct registry entries exactly once (in
particular both directions of every unordered pair exactly once). -/
theorem claim_C9_exhaustive_enumeration {α β : Type} [DecidableEq α]
    [LinearOrder β] (key : α → β) (tokens : List α)
    (hnd : (tokens.map key).Nodup) :
    (generatePairs key tokens).length = tokens.length * (tokens.length - 1) ∧
    (∀ p ∈ generatePairs key tokens, key p.1 ≠ key p.2) ∧
    (∀ x ∈ tokens, ∀ y ∈ tokens, x ≠ y →
      occ (x, y) (generatePairs key tokens) = 1) := by
  have heq := generatePairs_eq_specPairs key tokens hnd
  have hndl : tokens.Nodup := List.Nodup.of_map key hnd
  refine ⟨?_, ?_, ?_⟩
  · rw [heq]
    exact specPairs_length tokens
  · intro p hp
    rw [heq] at hp
    have h12 := specPairs_ne hndl p hp
    obtain ⟨h1, h2⟩ := mem_specPairs hp
    intro hk
    exact h12 (key_injOn_of_nodup_map hnd p.1 h1 p.2 h2 hk)
  · intro x hx y hy hxy
    rw [heq]
    exact occ_specPairs_eq_one hxy hx hy hndl

/-- Witness for C9 at a concrete five-element registry: 20 ordered pairs,
and the pair (0, 1) appears exactly once. -/
theorem claim_C9_exhaustive_enumeration_witness :
    (generatePairs id ([0, 1, 2, 3, 4] : List Nat)).length = 5 * (5 - 1) ∧
    occ ((0, 1) : Nat × Nat) (generatePairs id [0, 1, 2, 3, 4]) = 1 := by
  refine ⟨?_, ?_⟩
  · exact (claim_C9_exhaustive_enumeration id [0, 1, 2, 3, 4] (by decide)).1
  · exact (claim_C9_exhaustive_enumeration id [0, 1, 2, 3, 4] (by decide)).2.2
      0 (by decide) 1 (by decide) (by decide)

theorem computeSlippage_eq_fin (f t : ℚ) (hf : f ≠ 0) :
    computeSlippage f t = JsNum.fin (round3 ((f - t) / f * 100)) := by
  simp only [computeSlippage, jsDiv, if_neg hf]

theorem computeSlippage_zero_of_pos (t : ℚ) (ht : 0 < t) :
    computeSlippage 0 t = JsNum.negInf := by
  have hna : ¬(0 : ℚ) < 0 - t := by linarith
  have hneg : (0 : ℚ) - t < 0 := by linarith
  simp only [computeSlippage, jsDiv, if_pos rfl, if_neg hna, if_pos hneg]
  rfl

theorem computeSlippage_zero_zero : computeSlippage 0 0 = JsNum.nan := by
  have hna : ¬(0 : ℚ) < 0 - 0 := by norm_num
  have hnb : ¬(0 : ℚ) - 0 < 0 := by norm_num
  simp only [computeSlippage, jsDiv, if_pos rfl, if_neg hna, if_neg hnb]
  rfl

theorem round3_one : round3 1 = 1 := by
  unfold round3 jsRound
  have h3 : ⌊(1 : ℚ) * 1000 + 1 / 2⌋ = 1000 := by
    apply Int.floor_eq_iff.mpr
    constructor <;> norm_num
  rw [h3]
  norm_num

theorem computeSlippage_thousand : computeSlippage 1000 990 = JsNum.fin 1 := by
  rw [computeSlippage_eq_fin 1000 990 (by norm_num)]
  have h2 : ((1000 : ℚ) - 990) / 1000 * 100 = 1 := by norm_num
  rw [h2, round3_one]

/-- C2: for every quote whose source USD value `f` is nonzero, the recorded
slippage equals ((f - t) / f) * 100 rounded to 3 decimal places (the
spec-side formula `specSlippagePercent`); in particular fromAmountUSD 1000
and toAmountUSD 990 store exactly 1. -/
theorem claim_C2_slippage_formula :
    (∀ f t : ℚ, f ≠ 0 →
      computeSlippage f t = JsNum.fin (specSlippagePercent f t)) ∧
    computeSlippage 1000 990 = JsNum.fin 1 := by
  constructor
  · intro f t hf
    rw [computeSlippage_eq_fin f t hf]
    unfold round3 jsRound specSlippagePercent
    rfl
  · exact computeSlippage_thousand

/-- Witness for C2 at the concrete quote of the claim. -/
theorem claim_C2_slippage_formula_witness :
    computeSlippage 1000 990 = JsNum.fin (specSlippagePercent 1000 990) :=
  claim_C2_slippage_formula.1 1000 990 (by norm_num)

/-- C3: in both retry loops of the order-based client, the "order already
completed or canceled" signal makes the client create exactly one new order
(`orders + 1`), retry the same step (the loop continues on the remaining
responses of the same request site), and reset the transient-retry counter
to zero, so the signal never consumes one of the bounded retry attempts. -/
theorem claim_C3_order_completed_recovery :
    (∀ rc orders rest, rc < OkuService.updateParamsMaxRetries →
      OkuService.updateParamsLoop rc orders
        (OkuService.UpdateResp.orderCompleted :: rest) =
      OkuService.updateParamsLoop 0 (orders + 1) rest) ∧
    (∀ rc orders rest, rc < OkuService.getQuotesMaxRetries →
      OkuService.getQuotesLoop rc orders
        (OkuService.QuotesResp.orderCompleted :: rest) =
      OkuService.getQuotesLoop 0 (orders + 1) rest) := by
  constructor
  · intro rc orders rest h
    simp [OkuService.updateParamsLoop, if_pos h]
  · intro rc orders rest h
    simp [OkuService.getQuotesLoop, if_pos h]

/-- Witness for C3: the recovery equation at retry counter 2 of 3 for
UpdateQuoteParams and 4 of 5 for GetNewQuotes. -/
theorem claim_C3_order_completed_recovery_witness :
    OkuService.updateParamsLoop 2 0
      (OkuService.UpdateResp.orderCompleted :: [OkuService.UpdateResp.success]) =
      OkuService.updateParamsLoop 0 1 [OkuService.UpdateResp.success] ∧
    OkuService.getQuotesLoop 4 0
      (OkuService.QuotesResp.orderCompleted :: [OkuService.QuotesResp.quotes true]) =
      OkuService.getQuotesLoop 0 1 [OkuService.QuotesResp.quotes true] :=
  ⟨claim_C3_order_completed_recovery.1 2 0 _ (by decide),
   claim_C3_order_completed_recovery.2 4 0 _ (by decide)⟩

/-- C7 counterexample: a quote whose source USD value is zero (the quote's
inAmount string "0" is truthy, parses to 0, and the source price 1 is
truthy) is rendered at -Infinity by the division, and that non-finite
number — not null — is the recorded bucket value; likewise the LiFi-side
computation at fromAmountUSD 0. So "slippage is recorded as null and no
division by zero occurs" fails. -/
theorem claim_C7_counterexample :
    OkuSlippageService.okuBucketValue 1 (some 1) (some (0, 990)) =
      some JsNum.negInf ∧
    computeSlippage 0 990 = JsNum.negInf := by
  constructor
  · simp only [OkuSlippageService.okuBucketValue,
      if_neg (by norm_num : ¬(1 : ℚ) = 0)]
    have h1 : ((0, 990) : ℚ × ℚ).1 * 1 = 0 := by norm_num
    have h2 : ((0, 990) : ℚ × ℚ).2 * 1 = 990 := by norm_num
    rw [h1, h2, computeSlippage_zero_of_pos 990 (by norm_num)]
  · exact computeSlippage_zero_of_pos 990 (by norm_num)

/-- C7 amended: an unknown (or zero, hence falsy) destination-token price
records null; a nonzero source USD value always yields a finite stored
number (no division by zero); but a zero source USD value is unguarded: the
division executes and produces -Infinity (positive destination value) or
NaN (zero destination value) instead of null. -/
theorem claim_C7_zero_source_guard :
    (∀ tp best, OkuSlippageService.okuBucketValue tp none best = none) ∧
    (∀ tp best, OkuSlippageService.okuBucketValue tp (some 0) best = none) ∧
    (∀ f t : ℚ, f ≠ 0 → ∃ q : ℚ, computeSlippage f t = JsNum.fin q) ∧
    (∀ t : ℚ, 0 < t → computeSlippage 0 t = JsNum.negInf) ∧
    computeSlippage 0 0 = JsNum.nan := by
  refine ⟨?_, ?_, ?_, computeSlippage_zero_of_pos, computeSlippage_zero_zero⟩
  · intro tp best
    cases best <;> rfl
  · intro tp best
    cases best with
    | none => rfl
    | some q => simp [OkuSlippageService.okuBucketValue]
  · intro f t hf
    exact ⟨_, computeSlippage_eq_fin f t hf⟩

/-- Witness for C7 amended at concrete prices and quotes. -/
theorem claim_C7_zero_source_guard_witness :
    OkuSlippageService.okuBucketValue 5 none (some (2, 3)) = none ∧
    OkuSlippageService.okuBucketValue 5 (some 0) (some (2, 3)) = none ∧
    (∃ q : ℚ, computeSlippage 1000 990 = JsNum.fin q) ∧
    computeSlippage 0 990 = JsNum.negInf :=
  ⟨claim_C7_zero_source_guard.1 5 (some (2, 3)),
   claim_C7_zero_source_guard.2.1 5 (some (2, 3)),
   claim_C7_zero_source_guard.2.2.1 1000 990 (by norm_num),
   claim_C7_zero_source_guard.2.2.2.1 990 (by norm_num)⟩

theorem selectLatest_calc {tbl : List SlipRow} {r : SlipRow}
    (h : r ∈ SlippageService.selectLatest tbl) :
    r.calculation_timestamp = SlippageService.latestCalcTimestamp tbl := by
  unfold SlippageService.selectLatest at h
  cases hl : SlippageService.latestCalcTimestamp tbl with
  | none => rw [hl] at h; simp at h
  | some ts =>
    rw [hl] at h
    have hb := (List.mem_filter.mp h).2
    rw [beq_iff_eq] at hb
    exact hb

theorem selectLatest_max {tbl : List SlipRow} {r s : SlipRow} {a b : Nat}
    (hr : r ∈ SlippageService.selectLatest tbl) (hs : s ∈ tbl)
    (ha : r.calculation_timestamp = some a)
    (hb : s.calculation_timestamp = some b) : b ≤ a := by
  have hcalc := selectLatest_calc hr
  have h2 : SlippageService.latestCalcTimestamp tbl = some a := by
    rw [← hcalc, ha]
  unfold SlippageService.latestCalcTimestamp at h2
  have hbmem : b ∈ tbl.filterMap (fun x => x.calculation_timestamp) :=
    List.mem_filterMap.mpr ⟨s, hs, hb⟩
  exact (maxTimestamp_spec h2).2 b hbmem

theorem selectLatestOku_calc {tbl : List SlipRow} {r : SlipRow}
    (h : r ∈ OkuSlippageService.selectLatestOku tbl) :
    r.calculation_timestamp = OkuSlippageService.latestCalcTimestampOku tbl ∧
    r.provider = some "Oku" := by
  unfold OkuSlippageService.selectLatestOku at h
  cases hl : OkuSlippageService.latestCalcTimestampOku tbl with
  | none => rw [hl] at h; simp at h
  | some ts =>
    rw [hl] at h
    have hb := (List.mem_filter.mp h).2
    rw [Bool.and_eq_true, beq_iff_eq, beq_iff_eq] at hb
    exact hb

theorem selectLatestOku_max {tbl : List SlipRow} {r s : SlipRow} {a b : Nat}
    (hr : r ∈ OkuSlippageService.selectLatestOku tbl) (hs : s ∈ tbl)
    (hsp : s.provider = some "Oku")
    (ha : r.calculation_timestamp = some a)
    (hb : s.calculation_timestamp = some b) : b ≤ a := by
  have hcalc := (selectLatestOku_calc hr).1
  have h2 : OkuSlippageService.latestCalcTimestampOku tbl = some a := by
    rw [← hcalc, ha]
  unfold OkuSlippageService.latestCalcTimestampOku at h2
  have hsmem : s ∈ tbl.filter (fun x => x.provider == some "Oku") :=
    List.mem_filter.mpr ⟨hs, by rw [beq_iff_eq]; exact hsp⟩
  have hbmem : b ∈ (tbl.filter (fun x => x.provider == some "Oku")).filterMap
      (fun x => x.calculation_timestamp) :=
    List.mem_filterMap.mpr ⟨s, hsmem, hb⟩
  exact (maxTimestamp_spec h2).2 b hbmem

theorem getCachedSlippage_rows (tbl : List SlipRow) :
    (SlippageService.getCachedSlippageData (Except.ok tbl)).slippageData =
      (SlippageService.selectLatest tbl).map SlippageService.rowToData := by
  unfold SlippageService.getCachedSlippageData SlippageService.selectLatest
  cases hl : SlippageService.latestCalcTimestamp tbl <;> simp [hl]

theorem getCachedOkuSlippage_rows (tbl : List SlipRow) :
    (OkuSlippageService.getCachedOkuSlippageData (Except.ok tbl)).slippageData =
      (OkuSlippageService.selectLatestOku tbl).map SlippageService.rowToData := by
  unfold OkuSlippageService.getCachedOkuSlippageData
    OkuSlippageService.selectLatestOku
  cases hl : OkuSlippageService.latestCalcTimestampOku tbl <;> simp [hl]

/-- C1: both latest-slippage readers return only rows stamped with the
maximum calculation timestamp present (for the Oku reader, the maximum
among provider-'Oku' rows): every returned row carries that maximum, every
timestamp in the table is at most it, and the served records are exactly
the selected rows — never a mix of two calculation runs. -/
theorem claim_C1_latest_single_run :
    (∀ tbl : List SlipRow,
      (∀ r ∈ SlippageService.selectLatest tbl,
        r.calculation_timestamp = SlippageService.latestCalcTimestamp tbl) ∧
      (∀ r ∈ SlippageService.selectLatest tbl, ∀ s ∈ tbl, ∀ a b : Nat,
        r.calculation_timestamp = some a → s.calculation_timestamp = some b →
          b ≤ a) ∧
      (SlippageService.getCachedSlippageData (Except.ok tbl)).slippageData =
        (SlippageService.selectLatest tbl).map SlippageService.rowToData) ∧
    (∀ tbl : List SlipRow,
      (∀ r ∈ OkuSlippageService.selectLatestOku tbl,
        r.calculation_timestamp =
          OkuSlippageService.latestCalcTimestampOku tbl ∧
        r.provider = some "Oku") ∧
      (∀ r ∈ OkuSlippageService.selectLatestOku tbl, ∀ s ∈ tbl,
        s.provider = some "Oku" → ∀ a b : Nat,
        r.calculation_timestamp = some a → s.calculation_timestamp = some b →
          b ≤ a) ∧
      (OkuSlippageService.getCachedOkuSlippageData
          (Except.ok tbl)).slippageData =
        (OkuSlippageService.selectLatestOku tbl).map
          SlippageService.rowToData) := by
  constructor
  · intro tbl
    exact ⟨fun r hr => selectLatest_calc hr,
      fun r hr s hs a b ha hb => selectLatest_max hr hs ha hb,
      getCachedSlippage_rows tbl⟩
  · intro tbl
    exact ⟨fun r hr => selectLatestOku_calc hr,
      fun r hr s hs hsp a b ha hb => selectLatestOku_max hr hs hsp ha hb,
      getCachedOkuSlippage_rows tbl⟩

/-- Witness for C1 on a concrete two-run cache: the selected row carries the
maximum timestamp and the older run's timestamp is dominated. -/
theorem claim_C1_latest_single_run_witness :
    c1rowNew.calculation_timestamp = SlippageService.latestCalcTimestamp c1tbl ∧
    (1 : Nat) ≤ 2 := by
  have hmem : c1rowNew ∈ SlippageService.selectLatest c1tbl := by decide
  have hmemOld : c1rowOld ∈ c1tbl := by decide
  exact ⟨(claim_C1_latest_single_run.1 c1tbl).1 c1rowNew hmem,
    (claim_C1_latest_single_run.1 c1tbl).2.1 c1rowNew hmem c1rowOld hmemOld
      2 1 rfl rfl⟩

/-- C10: the cached-read entry points catch every database failure and
return the empty list with null timestamps instead of throwing (their
return types are plain values, so nothing can propagate). -/
theorem claim_C10_reads_swallow_db_errors :
    (∀ e, LifiService.getCachedRoutes (Except.error e) = ⟨[], none⟩) ∧
    (∀ e, OkuService.getCachedOkuRoutes (Except.error e) = ⟨[], none⟩) ∧
    (∀ e, SlippageService.getCachedSlippageData (Except.error e) =
      ⟨[], none, none⟩) :=
  ⟨fun _ => rfl, fun _ => rfl, fun _ => rfl⟩

theorem sameRouteKey_provider {r s : RouteRow} (h : sameRouteKey r s = true) :
    r.provider = s.provider := by
  unfold sameRouteKey at h
  exact (of_decide_eq_true h).2.2

theorem occ_map_of_fixed {α : Type} [DecidableEq α] (f : α → α) (l : List α)
    (r : α) (h : ∀ x ∈ l, f x = x ∨ (r ≠ x ∧ r ≠ f x)) :
    occ r (l.map f) = occ r l := by
  induction l with
  | nil => rfl
  | cons x xs ih =>
    have ih2 := ih (fun y hy => h y (List.mem_cons_of_mem x hy))
    simp only [List.map_cons, occ]
    rcases h x (List.mem_cons_self x xs) with h1 | ⟨h2, h3⟩
    · rw [h1, ih2]
    · rw [if_neg h3, if_neg h2, ih2]

theorem occ_routeMap (rest : List RouteRow) (row r : RouteRow)
    (h : r.provider ≠ row.provider) :
    occ r (rest.map (fun x =>
      if sameRouteKey x row then
        { x with routes_data := row.routes_data, last_updated := row.last_updated }
      else x)) = occ r rest := by
  apply occ_map_of_fixed
  intro x _
  by_cases hk : sameRouteKey x row
  · refine Or.inr ⟨?_, ?_⟩
    · intro hc
      exact h (hc ▸ sameRouteKey_provider hk)
    · intro hc
      apply h
      rw [hc, if_pos hk]
      exact sameRouteKey_provider hk
  · exact Or.inl (if_neg hk)

theorem occ_upsertRoute_of_ne_provider (tbl : List RouteRow) (row r : RouteRow)
    (h : r.provider ≠ row.provider) :
    occ r (upsertRoute tbl row) = occ r tbl := by
  unfold upsertRoute
  by_cases hany : tbl.any (fun x => sameRouteKey x row)
  · rw [if_pos hany]
    exact occ_routeMap tbl row r h
  · rw [if_neg hany, occ_append]
    have hr : r ≠ row := by
      intro hc; exact h (hc ▸ rfl)
    simp [occ, hr]

theorem occ_okuProcessPair (now : Nat) (prices : String → Option ℚ)
    (acc : List RouteRow × Nat × Nat) (p : Token × Token)
    (out : OkuService.PairOutcome) (r : RouteRow) (h : r.provider ≠ "Oku") :
    occ r (OkuService.processPair now prices acc p out).1 = occ r acc.1 := by
  unfold OkuService.processPair
  by_cases hp : priceTruthy (prices (lowerStr p.1.symbol))
  · rw [if_pos hp]
    cases out with
    | thrown => rfl
    | dexes s f =>
      by_cases hall : (s ++ f.map (fun d => d ++ "✗")) = []
      · simp [hall]
      · simp only [if_neg hall]
        exact occ_upsertRoute_of_ne_provider acc.1 _ r h
  · rw [if_neg hp]

theorem occ_okuRunPairs (now : Nat) (prices : String → Option ℚ)
    (oracle : Nat → OkuService.PairOutcome) (pairs : List (Token × Token))
    (i : Nat) (acc : List RouteRow × Nat × Nat) (r : RouteRow)
    (h : r.provider ≠ "Oku") :
    occ r (OkuService.runPairs now prices oracle pairs i acc).1 = occ r acc.1 := by
  induction pairs generalizing i acc with
  | nil => rfl
  | cons p rest ih =>
    rw [OkuService.runPairs, ih]
    exact occ_okuProcessPair now prices acc p (oracle i) r h

/-- C5 counterexample: a LiFi route-fetch run (empty registry, so it probes
nothing) starts with `DELETE FROM routes_cache` and thereby deletes the
other provider's row — the claim that a run deletes exactly its own
provider's rows and leaves the other provider's rows unchanged is false. -/
theorem claim_C5_counterexample :
    c5okuRow ∈ [c5okuRow] ∧
    (LifiService.fetchAndCacheLiFiData 9 (Except.ok [])
      (fun _ => LifiService.ConnResp.thrown) [c5okuRow]).table = [] :=
  ⟨List.mem_singleton.mpr rfl, rfl⟩

/-- C5 amended: the LiFi route fetch begins by deleting ALL routes_cache
rows of every provider (its final table does not depend on the prior table
at all), while the Oku route fetch deletes nothing and leaves every row of
other providers unchanged (its writes are upserts keyed with provider
'Oku'). -/
theorem claim_C5_clear_behaviour :
    (∀ now toks resp tbl,
      (LifiService.fetchAndCacheLiFiData now (Except.ok toks) resp tbl).table =
      (LifiService.fetchAndCacheLiFiData now (Except.ok toks) resp []).table) ∧
    (∀ now tokensQ pt oracle tbl (r : RouteRow), r.provider ≠ "Oku" →
      occ r (OkuService.fetchAndCacheOkuData now tokensQ pt oracle tbl).table =
      occ r tbl) := by
  constructor
  · intro now toks resp tbl
    rfl
  · intro now tokensQ pt oracle tbl r h
    cases tokensQ with
    | error e => rfl
    | ok toks =>
      unfold OkuService.fetchAndCacheOkuData
      exact occ_okuRunPairs now _ oracle _ 0 (tbl, 0, 0) r h

/-- Witness for C5 amended: an Oku run over an empty registry leaves the
LiFi row's occurrence count unchanged. -/
theorem claim_C5_clear_behaviour_witness :
    occ c5lifiRow (OkuService.fetchAndCacheOkuData 0 (Except.ok []) []
      (fun _ => OkuService.PairOutcome.thrown) [c5lifiRow]).table =
    occ c5lifiRow [c5lifiRow] :=
  claim_C5_clear_behaviour.2 0 (Except.ok []) []
    (fun _ => OkuService.PairOutcome.thrown) [c5lifiRow] c5lifiRow (by decide)

theorem buckets_set_init_none (a : Nat) :
    SlippageService.Buckets.set SlippageService.Buckets.init a none =
      SlippageService.Buckets.init := by
  unfold SlippageService.Buckets.set SlippageService.Buckets.init
  split_ifs <;> rfl

theorem slipAmountStep_noPrice (prices : String → Option ℚ)
    (fromTok toTok : Token) (amountUSD : Nat)
    (resp : SlippageService.AmountResp) (st : SlippageService.RunState)
    (cur : Option JsNum)
    (hfalse : priceTruthy (prices (lowerStr fromTok.symbol)) = false) :
    SlippageService.amountStep prices fromTok toTok amountUSD resp st cur =
      (st, none) := by
  unfold SlippageService.amountStep
  cases hp : prices (lowerStr fromTok.symbol) with
  | none => rfl
  | some p =>
    rw [hp] at hfalse
    unfold priceTruthy at hfalse
    have hz : p = 0 := by
      by_contra hc
      simp [hc] at hfalse
    subst hz
    simp

theorem slipAmountsLoop_noPrice (prices : String → Option ℚ)
    (fromTok toTok : Token) (resp : Nat → SlippageService.AmountResp)
    (hfalse : priceTruthy (prices (lowerStr fromTok.symbol)) = false) :
    ∀ (amounts : List Nat) (st : SlippageService.RunState),
      SlippageService.amountsLoop prices fromTok toTok resp amounts st
        SlippageService.Buckets.init = (st, SlippageService.Buckets.init) := by
  intro amounts
  induction amounts with
  | nil => intro st; rfl
  | cons a rest ih =>
    intro st
    unfold SlippageService.amountsLoop
    by_cases hrc : st.requestCount ≥ SlippageService.MAX_REQUESTS_PER_HOUR
    · rw [if_pos hrc]
    · rw [if_neg hrc]
      simp only [slipAmountStep_noPrice prices fromTok toTok a (resp a) st _
        hfalse, buckets_set_init_none]
      exact ih st

/-- C6 counterexample: the source token LBTC has no entry in the price
table, yet the pipeline's price map substitutes WBTC's price for it and the
pair probe issues four upstream quote requests — so "records null for every
bucket, issues no upstream request, missing prices never substituted" fails
on the code. -/
theorem claim_C6_counterexample :
    latestPrice c6priceTable "lbtc" = none ∧
    SlippageService.getLatestTokenPrices c6priceTable "lbtc" = some 1 ∧
    (SlippageService.pairStep 7 8
      (SlippageService.getLatestTokenPrices c6priceTable)
      (fun _ => SlippageService.AmountResp.ok SlippageService.RouteQuote.noRoutes)
      c6lbtc c6weth ⟨0, [], [], 0, 0⟩).probes.length = 4 :=
  ⟨rfl, rfl, rfl⟩

/-- C6 amended: whenever the source token has no truthy entry in the
effective price map (the latest table prices after the LBTC and stXTZ
substitutions), the pair is recorded with every bucket null, counted as an
error, and no upstream request is issued; however the effective map itself
substitutes WBTC's price for LBTC, and (in the Oku variant) XTZ times 1.031
for stXTZ, even when the price table has no row for those tokens. -/
theorem claim_C6_missing_price :
    (∀ prices fromTok toTok ts now resp (st : SlippageService.RunState),
      priceTruthy (prices (lowerStr fromTok.symbol)) = false →
      SlippageService.pairStep ts now prices resp fromTok toTok st =
        { st with
          table := st.table ++
            [⟨fromTok.symbol, toTok.symbol, none, none, none, none, some ts,
              none, now⟩],
          errorCount := st.errorCount + 1 }) ∧
    (∀ tbl, priceTruthy (latestPrice tbl "wbtc") = true →
      SlippageService.getLatestTokenPrices tbl "lbtc" =
        latestPrice tbl "wbtc") ∧
    (∀ tbl, priceTruthy (latestPrice tbl "xtz") = true →
      priceTruthy (latestPrice tbl "stxtz") = false →
      OkuService.getLatestTokenPrices tbl "stxtz" =
        (latestPrice tbl "xtz").map (fun p => p * (1031 / 1000))) := by
  refine ⟨?_, ?_, ?_⟩
  · intro prices fromTok toTok ts now resp st hfalse
    unfold SlippageService.pairStep
    rw [slipAmountsLoop_noPrice prices fromTok toTok resp hfalse
      SlippageService.TEST_AMOUNTS st]
    rfl
  · intro tbl hw
    simp [SlippageService.getLatestTokenPrices, hw]
  · intro tbl hx hs
    unfold OkuService.getLatestTokenPrices
    by_cases hw : priceTruthy (latestPrice tbl "wbtc") <;>
      simp [hw, hx, hs]

/-- Witness for C6 amended: a pair whose source symbol is absent from an
empty price map writes the all-null row and counts an error; and on the
concrete table of the counterexample the LBTC substitution is WBTC's
price. -/
theorem claim_C6_missing_price_witness :
    SlippageService.pairStep 7 8 (fun _ => none)
      (fun _ => SlippageService.AmountResp.failed) c6lbtc c6weth
      ⟨0, [], [], 0, 0⟩ =
      ⟨0, [], [⟨"LBTC", "WETH", none, none, none, none, some 7, none, 8⟩], 0, 1⟩ ∧
    SlippageService.getLatestTokenPrices c6priceTable "lbtc" =
      latestPrice c6priceTable "wbtc" := by
  constructor
  · rw [claim_C6_missing_price.1 (fun _ => none) c6lbtc c6weth 7 8
      (fun _ => SlippageService.AmountResp.failed) ⟨0, [], [], 0, 0⟩ rfl]
    rfl
  · exact claim_C6_missing_price.2.1 c6priceTable rfl

theorem slipAmountStep_shape (prices : String → Option ℚ)
    (fromTok toTok : Token) (amountUSD : Nat)
    (resp : SlippageService.AmountResp) (st : SlippageService.RunState)
    (cur : Option JsNum) :
    ∃ k : Nat,
      (SlippageService.amountStep prices fromTok toTok amountUSD resp st cur).1.requestCount =
        st.requestCount + k ∧
      (SlippageService.amountStep prices fromTok toTok amountUSD resp st cur).1.table =
        st.table ∧
      (SlippageService.amountStep prices fromTok toTok amountUSD resp st cur).1.successCount =
        st.successCount ∧
      (SlippageService.amountStep prices fromTok toTok amountUSD resp st cur).1.errorCount =
        st.errorCount ∧
      (∃ ext, (SlippageService.amountStep prices fromTok toTok amountUSD resp st cur).1.probes =
        st.probes ++ ext) ∧
      (st.requestCount < SlippageService.MAX_REQUESTS_PER_HOUR →
        st.requestCount + k ≤ SlippageService.MAX_REQUESTS_PER_HOUR) := by
  unfold SlippageService.amountStep
  cases hp : prices (lowerStr fromTok.symbol) with
  | none =>
    exact ⟨0, rfl, rfl, rfl, rfl, ⟨[], by simp⟩, by omega⟩
  | some p =>
    dsimp only
    by_cases hz : p = 0
    · rw [if_pos hz]
      exact ⟨0, rfl, rfl, rfl, rfl, ⟨[], by simp⟩, by omega⟩
    · rw [if_neg hz]
      cases resp with
      | ok q =>
        cases q with
        | routes f t => exact ⟨1, rfl, rfl, rfl, rfl, ⟨_, rfl⟩, by omega⟩
        | noRoutes => exact ⟨1, rfl, rfl, rfl, rfl, ⟨_, rfl⟩, by omega⟩
      | failed => exact ⟨1, rfl, rfl, rfl, rfl, ⟨_, rfl⟩, by omega⟩
      | rateLimited retry =>
        dsimp only
        by_cases hlt : st.requestCount + 1 < SlippageService.MAX_REQUESTS_PER_HOUR
        · rw [if_pos hlt]
          cases retry with
          | none =>
            exact ⟨2, rfl, rfl, rfl, rfl, ⟨_, by rw [List.append_assoc]⟩, by omega⟩
          | some q =>
            cases q with
            | routes f t =>
              exact ⟨2, rfl, rfl, rfl, rfl, ⟨_, by rw [List.append_assoc]⟩, by omega⟩
            | noRoutes =>
              exact ⟨2, rfl, rfl, rfl, rfl, ⟨_, by rw [List.append_assoc]⟩, by omega⟩
        · rw [if_neg hlt]
          exact ⟨1, rfl, rfl, rfl, rfl, ⟨_, rfl⟩, by omega⟩

theorem slipAmountsLoop_stop (prices : String → Option ℚ)
    (fromTok toTok : Token) (resp : Nat → SlippageService.AmountResp)
    (amounts : List Nat) (st : SlippageService.RunState)
    (b : SlippageService.Buckets)
    (h : st.requestCount ≥ SlippageService.MAX_REQUESTS_PER_HOUR) :
    SlippageService.amountsLoop prices fromTok toTok resp amounts st b = (st, b) := by
  cases amounts with
  | nil => rfl
  | cons a rest =>
    simp only [SlippageService.amountsLoop]
    rw [if_pos h]

theorem slipAmountsLoop_shape (prices : String → Option ℚ)
    (fromTok toTok : Token) (resp : Nat → SlippageService.AmountResp) :
    ∀ (amounts : List Nat) (st : SlippageService.RunState)
      (b : SlippageService.Buckets),
      ∃ k : Nat,
        (SlippageService.amountsLoop prices fromTok toTok resp amounts st b).1.requestCount =
          st.requestCount + k ∧
        (SlippageService.amountsLoop prices fromTok toTok resp amounts st b).1.table =
          st.table ∧
        (SlippageService.amountsLoop prices fromTok toTok resp amounts st b).1.successCount =
          st.successCount ∧
        (SlippageService.amountsLoop prices fromTok toTok resp amounts st b).1.errorCount =
          st.errorCount ∧
        (∃ ext, (SlippageService.amountsLoop prices fromTok toTok resp amounts st b).1.probes =
          st.probes ++ ext) ∧
        (st.requestCount ≤ SlippageService.MAX_REQUESTS_PER_HOUR →
          st.requestCount + k ≤ SlippageService.MAX_REQUESTS_PER_HOUR) := by
  intro amounts
  induction amounts with
  | nil =>
    intro st b
    exact ⟨0, rfl, rfl, rfl, rfl, ⟨[], by simp [SlippageService.amountsLoop]⟩, by omega⟩
  | cons a rest ih =>
    intro st b
    by_cases hrc : st.requestCount ≥ SlippageService.MAX_REQUESTS_PER_HOUR
    · rw [slipAmountsLoop_stop prices fromTok toTok resp _ st b hrc]
      exact ⟨0, rfl, rfl, rfl, rfl, ⟨[], by simp⟩, by omega⟩
    · have hstep : SlippageService.amountsLoop prices fromTok toTok resp
          (a :: rest) st b =
          SlippageService.amountsLoop prices fromTok toTok resp rest
            (SlippageService.amountStep prices fromTok toTok a (resp a) st (b.get a)).1
            (b.set a (SlippageService.amountStep prices fromTok toTok a (resp a) st (b.get a)).2) := by
        simp only [SlippageService.amountsLoop]
        rw [if_neg hrc]
      rw [hstep]
      obtain ⟨k1, hrc1, htab1, hsc1, hec1, ⟨ext1, hpr1⟩, hb1⟩ :=
        slipAmountStep_shape prices fromTok toTok a (resp a) st (b.get a)
      obtain ⟨k2, hrc2, htab2, hsc2, hec2, ⟨ext2, hpr2⟩, hb2⟩ := ih
        (SlippageService.amountStep prices fromTok toTok a (resp a) st (b.get a)).1
        (b.set a (SlippageService.amountStep prices fromTok toTok a (resp a) st (b.get a)).2)
      refine ⟨k1 + k2, ?_, ?_, ?_, ?_, ⟨ext1 ++ ext2, ?_⟩, ?_⟩
      · rw [hrc2, hrc1]; omega
      · rw [htab2, htab1]
      · rw [hsc2, hsc1]
      · rw [hec2, hec1]
      · rw [hpr2, hpr1, List.append_assoc]
      · intro hle
        have h1 := hb1 (by omega)
        rw [hrc1] at hb2
        have h2 := hb2 (by omega)
        omega

theorem slipPairStep_shape (ts now : Nat) (prices : String → Option ℚ)
    (resp : Nat → SlippageService.AmountResp) (fromTok toTok : Token)
    (st : SlippageService.RunState) :
    ∃ (k ds de : Nat),
      (SlippageService.pairStep ts now prices resp fromTok toTok st).requestCount =
        st.requestCount + k ∧
      (∃ row, (SlippageService.pairStep ts now prices resp fromTok toTok st).table =
        st.table ++ [row]) ∧
      (SlippageService.pairStep ts now prices resp fromTok toTok st).successCount =
        st.successCount + ds ∧
      (SlippageService.pairStep ts now prices resp fromTok toTok st).errorCount =
        st.errorCount + de ∧
      ds + de = 1 ∧
      (st.requestCount ≤ SlippageService.MAX_REQUESTS_PER_HOUR →
        st.requestCount + k ≤ SlippageService.MAX_REQUESTS_PER_HOUR) := by
  obtain ⟨k, hrc, htab, hsc, hec, _, hb⟩ := slipAmountsLoop_shape prices fromTok
    toTok resp SlippageService.TEST_AMOUNTS st SlippageService.Buckets.init
  unfold SlippageService.pairStep
  by_cases hs : (SlippageService.amountsLoop prices fromTok toTok resp
      SlippageService.TEST_AMOUNTS st SlippageService.Buckets.init).2.hasSome
  · rw [if_pos hs]
    exact ⟨k, 1, 0, hrc, ⟨_, by rw [htab]⟩, by rw [hsc], by simp [hec], rfl, hb⟩
  · rw [if_neg hs]
    exact ⟨k, 0, 1, hrc, ⟨_, by rw [htab]⟩, by simp [hsc], by rw [hec], rfl, hb⟩

theorem slipPairsLoop_spec (ts now : Nat) (prices : String → Option ℚ)
    (resps : Nat → Nat → SlippageService.AmountResp) :
    ∀ (pairs : List (Token × Token)) (i : Nat)
      (st : SlippageService.RunState),
      (st.requestCount ≥ SlippageService.MAX_REQUESTS_PER_HOUR →
        SlippageService.pairsLoop ts now prices resps pairs i st = st) ∧
      (∃ ext, (SlippageService.pairsLoop ts now prices resps pairs i st).table =
        st.table ++ ext) ∧
      ((SlippageService.pairsLoop ts now prices resps pairs i st).successCount +
        (SlippageService.pairsLoop ts now prices resps pairs i st).errorCount +
        st.table.length =
       st.successCount + st.errorCount +
        (SlippageService.pairsLoop ts now prices resps pairs i st).table.length) ∧
      (st.requestCount ≤ SlippageService.MAX_REQUESTS_PER_HOUR →
        (SlippageService.pairsLoop ts now prices resps pairs i st).requestCount ≤
          SlippageService.MAX_REQUESTS_PER_HOUR) := by
  intro pairs
  induction pairs with
  | nil =>
    intro i st
    exact ⟨fun _ => rfl, ⟨[], by simp [SlippageService.pairsLoop]⟩,
      by simp [SlippageService.pairsLoop], fun h => h⟩
  | cons p rest ih =>
    intro i st
    by_cases hrc : st.requestCount ≥ SlippageService.MAX_REQUESTS_PER_HOUR
    · have hstop : SlippageService.pairsLoop ts now prices resps (p :: rest) i st = st := by
        simp only [SlippageService.pairsLoop]
        rw [if_pos hrc]
      rw [hstop]
      exact ⟨fun _ => rfl, ⟨[], by simp⟩, by simp, fun h => h⟩
    · have hstep : SlippageService.pairsLoop ts now prices resps (p :: rest) i st =
          SlippageService.pairsLoop ts now prices resps rest (i + 1)
            (SlippageService.pairStep ts now prices (resps i) p.1 p.2 st) := by
        simp only [SlippageService.pairsLoop]
        rw [if_neg hrc]
      rw [hstep]
      obtain ⟨k, ds, de, hrck, ⟨row, htabr⟩, hsck, heck, hde, hb⟩ :=
        slipPairStep_shape ts now prices (resps i) p.1 p.2 st
      obtain ⟨_, ⟨ext2, htab2⟩, hcount2, hbound2⟩ := ih (i + 1)
        (SlippageService.pairStep ts now prices (resps i) p.1 p.2 st)
      refine ⟨fun h => absurd h hrc, ⟨[row] ++ ext2, ?_⟩, ?_, ?_⟩
      · rw [htab2, htabr, List.append_assoc]
      · have hlen : (SlippageService.pairStep ts now prices (resps i) p.1 p.2 st).table.length =
            st.table.length + 1 := by
          rw [htabr]
          simp
        rw [hsck, heck, hlen] at hcount2
        omega
      · intro hle
        apply hbound2
        rw [hrck]
        exact hb hle

theorem okuAmountStep_shape (prices : String → Option ℚ)
    (fromTok toTok : Token) (amountUSD : Nat)
    (resp : OkuSlippageService.OkuAmountResp)
    (st : OkuSlippageService.RunState) :
    ∃ k : Nat,
      (OkuSlippageService.amountStep prices fromTok toTok amountUSD resp st).1.requestCount =
        st.requestCount + k ∧
      (OkuSlippageService.amountStep prices fromTok toTok amountUSD resp st).1.table =
        st.table ∧
      (OkuSlippageService.amountStep prices fromTok toTok amountUSD resp st).1.successCount =
        st.successCount ∧
      (OkuSlippageService.amountStep prices fromTok toTok amountUSD resp st).1.errorCount =
        st.errorCount ∧
      (∃ ext, (OkuSlippageService.amountStep prices fromTok toTok amountUSD resp st).1.probes =
        st.probes ++ ext) ∧
      (st.requestCount < OkuSlippageService.MAX_REQUESTS_PER_HOUR →
        st.requestCount + k ≤ OkuSlippageService.MAX_REQUESTS_PER_HOUR) := by
  unfold OkuSlippageService.amountStep
  cases hp : prices (lowerStr fromTok.symbol) with
  | none =>
    exact ⟨0, rfl, rfl, rfl, rfl, ⟨[], by simp⟩, by omega⟩
  | some p =>
    dsimp only
    by_cases hz : p = 0
    · rw [if_pos hz]
      exact ⟨0, rfl, rfl, rfl, rfl, ⟨[], by simp⟩, by omega⟩
    · rw [if_neg hz]
      cases resp with
      | thrown => exact ⟨1, rfl, rfl, rfl, rfl, ⟨_, rfl⟩, by omega⟩
      | quote best => exact ⟨1, rfl, rfl, rfl, rfl, ⟨_, rfl⟩, by omega⟩

theorem okuAmountsLoop_stop (prices : String → Option ℚ)
    (fromTok toTok : Token) (resp : Nat → OkuSlippageService.OkuAmountResp)
    (amounts : List Nat) (st : OkuSlippageService.RunState)
    (b : SlippageService.Buckets)
    (h : st.requestCount ≥ OkuSlippageService.MAX_REQUESTS_PER_HOUR) :
    OkuSlippageService.amountsLoop prices fromTok toTok resp amounts st b = (st, b) := by
  cases amounts with
  | nil => rfl
  | cons a rest =>
    simp only [OkuSlippageService.amountsLoop]
    rw [if_pos h]

theorem okuAmountsLoop_shape (prices : String → Option ℚ)
    (fromTok toTok : Token) (resp : Nat → OkuSlippageService.OkuAmountResp) :
    ∀ (amounts : List Nat) (st : OkuSlippageService.RunState)
      (b : SlippageService.Buckets),
      ∃ k : Nat,
        (OkuSlippageService.amountsLoop prices fromTok toTok resp amounts st b).1.requestCount =
          st.requestCount + k ∧
        (OkuSlippageService.amountsLoop prices fromTok toTok resp amounts st b).1.table =
          st.table ∧
        (OkuSlippageService.amountsLoop prices fromTok toTok resp amounts st b).1.successCount =
          st.successCount ∧
        (OkuSlippageService.amountsLoop prices fromTok toTok resp amounts st b).1.errorCount =
          st.errorCount ∧
        (∃ ext, (OkuSlippageService.amountsLoop prices fromTok toTok resp amounts st b).1.probes =
          st.probes ++ ext) ∧
        (st.requestCount ≤ OkuSlippageService.MAX_REQUESTS_PER_HOUR →
          st.requestCount + k ≤ OkuSlippageService.MAX_REQUESTS_PER_HOUR) := by
  intro amounts
  induction amounts with
  | nil =>
    intro st b
    exact ⟨0, rfl, rfl, rfl, rfl, ⟨[], by simp [OkuSlippageService.amountsLoop]⟩, by omega⟩
  | cons a rest ih =>
    intro st b
    by_cases hrc : st.requestCount ≥ OkuSlippageService.MAX_REQUESTS_PER_HOUR
    · rw [okuAmountsLoop_stop prices fromTok toTok resp _ st b hrc]
      exact ⟨0, rfl, rfl, rfl, rfl, ⟨[], by simp⟩, by omega⟩
    · have hstep : OkuSlippageService.amountsLoop prices fromTok toTok resp
          (a :: rest) st b =
          OkuSlippageService.amountsLoop prices fromTok toTok resp rest
            (OkuSlippageService.amountStep prices fromTok toTok a (resp a) st).1
            (b.set a (OkuSlippageService.amountStep prices fromTok toTok a (resp a) st).2) := by
        simp only [OkuSlippageService.amountsLoop]
        rw [if_neg hrc]
      rw [hstep]
      obtain ⟨k1, hrc1, htab1, hsc1, hec1, ⟨ext1, hpr1⟩, hb1⟩ :=
        okuAmountStep_shape prices fromTok toTok a (resp a) st
      obtain ⟨k2, hrc2, htab2, hsc2, hec2, ⟨ext2, hpr2⟩, hb2⟩ := ih
        (OkuSlippageService.amountStep prices fromTok toTok a (resp a) st).1
        (b.set a (OkuSlippageService.amountStep prices fromTok toTok a (resp a) st).2)
      refine ⟨k1 + k2, ?_, ?_, ?_, ?_, ⟨ext1 ++ ext2, ?_⟩, ?_⟩
      · rw [hrc2, hrc1]; omega
      · rw [htab2, htab1]
      · rw [hsc2, hsc1]
      · rw [hec2, hec1]
      · rw [hpr2, hpr1, List.append_assoc]
      · intro hle
        have h1 := hb1 (by omega)
        rw [hrc1] at hb2
        have h2 := hb2 (by omega)
        omega

theorem okuPairStep_shape (ts now : Nat) (prices : String → Option ℚ)
    (resp : Nat → OkuSlippageService.OkuAmountResp) (fromTok toTok : Token)
    (st : OkuSlippageService.RunState) :
    ∃ (k ds de : Nat),
      (OkuSlippageService.pairStep ts now prices resp fromTok toTok st).requestCount =
        st.requestCount + k ∧
      (∃ row, (OkuSlippageService.pairStep ts now prices resp fromTok toTok st).table =
        st.table ++ [row]) ∧
      (OkuSlippageService.pairStep ts now prices resp fromTok toTok st).successCount =
        st.successCount + ds ∧
      (OkuSlippageService.pairStep ts now prices resp fromTok toTok st).errorCount =
        st.errorCount + de ∧
      ds + de = 1 ∧
      (st.requestCount ≤ OkuSlippageService.MAX_REQUESTS_PER_HOUR →
        st.requestCount + k ≤ OkuSlippageService.MAX_REQUESTS_PER_HOUR) := by
  obtain ⟨k, hrc, htab, hsc, hec, _, hb⟩ := okuAmountsLoop_shape prices fromTok
    toTok resp OkuSlippageService.TEST_AMOUNTS st SlippageService.Buckets.init
  unfold OkuSlippageService.pairStep
  by_cases hs : (OkuSlippageService.amountsLoop prices fromTok toTok resp
      OkuSlippageService.TEST_AMOUNTS st SlippageService.Buckets.init).2.hasSome
  · rw [if_pos hs]
    exact ⟨k, 1, 0, hrc, ⟨_, by rw [htab]⟩, by rw [hsc], by simp [hec], rfl, hb⟩
  · rw [if_neg hs]
    exact ⟨k, 0, 1, hrc, ⟨_, by rw [htab]⟩, by simp [hsc], by rw [hec], rfl, hb⟩

theorem okuPairsLoop_spec (ts now : Nat) (prices : String → Option ℚ)
    (resps : Nat → Nat → OkuSlippageService.OkuAmountResp) :
    ∀ (pairs : List (Token × Token)) (i : Nat)
      (st : OkuSlippageService.RunState),
      (st.requestCount ≥ OkuSlippageService.MAX_REQUESTS_PER_HOUR →
        OkuSlippageService.pairsLoop ts now prices resps pairs i st = st) ∧
      (∃ ext, (OkuSlippageService.pairsLoop ts now prices resps pairs i st).table =
        st.table ++ ext) ∧
      ((OkuSlippageService.pairsLoop ts now prices resps pairs i st).successCount +
        (OkuSlippageService.pairsLoop ts now prices resps pairs i st).errorCount +
        st.table.length =
       st.successCount + st.errorCount +
        (OkuSlippageService.pairsLoop ts now prices resps pairs i st).table.length) ∧
      (st.requestCount ≤ OkuSlippageService.MAX_REQUESTS_PER_HOUR →
        (OkuSlippageService.pairsLoop ts now prices resps pairs i st).requestCount ≤
          OkuSlippageService.MAX_REQUESTS_PER_HOUR) := by
  intro pairs
  induction pairs with
  | nil =>
    intro i st
    exact ⟨fun _ => rfl, ⟨[], by simp [OkuSlippageService.pairsLoop]⟩,
      by simp [OkuSlippageService.pairsLoop], fun h => h⟩
  | cons p rest ih =>
    intro i st
    by_cases hrc : st.requestCount ≥ OkuSlippageService.MAX_REQUESTS_PER_HOUR
    · have hstop : OkuSlippageService.pairsLoop ts now prices resps (p :: rest) i st = st := by
        simp only [OkuSlippageService.pairsLoop]
        rw [if_pos hrc]
      rw [hstop]
      exact ⟨fun _ => rfl, ⟨[], by simp⟩, by simp, fun h => h⟩
    · have hstep : OkuSlippageService.pairsLoop ts now prices resps (p :: rest) i st =
          OkuSlippageService.pairsLoop ts now prices resps rest (i + 1)
            (OkuSlippageService.pairStep ts now prices (resps i) p.1 p.2 st) := by
        simp only [OkuSlippageService.pairsLoop]
        rw [if_neg hrc]
      rw [hstep]
      obtain ⟨k, ds, de, hrck, ⟨row, htabr⟩, hsck, heck, hde, hb⟩ :=
        okuPairStep_shape ts now prices (resps i) p.1 p.2 st
      obtain ⟨_, ⟨ext2, htab2⟩, hcount2, hbound2⟩ := ih (i + 1)
        (OkuSlippageService.pairStep ts now prices (resps i) p.1 p.2 st)
      refine ⟨fun h => absurd h hrc, ⟨[row] ++ ext2, ?_⟩, ?_, ?_⟩
      · rw [htab2, htabr, List.append_assoc]
      · have hlen : (OkuSlippageService.pairStep ts now prices (resps i) p.1 p.2 st).table.length =
            st.table.length + 1 := by
          rw [htabr]
          simp
        rw [hsck, heck, hlen] at hcount2
        omega
      · intro hle
        apply hbound2
        rw [hrck]
        exact hb hle

/-- C8: in both slippage pipelines, once the request counter has reached
the ceiling the pair loop issues nothing further and changes nothing (it
returns its state unchanged); rows already written are preserved (the final
table extends the current one); every attempted pair contributes exactly one
row and exactly one success-or-error count, so the counters reflect exactly
the pairs attempted; and the counter never exceeds the ceiling. -/
theorem claim_C8_rate_limit_ceiling :
    (∀ ts now prices resps pairs i (st : SlippageService.RunState),
      (st.requestCount ≥ SlippageService.MAX_REQUESTS_PER_HOUR →
        SlippageService.pairsLoop ts now prices resps pairs i st = st) ∧
      (∃ ext, (SlippageService.pairsLoop ts now prices resps pairs i st).table =
        st.table ++ ext) ∧
      ((SlippageService.pairsLoop ts now prices resps pairs i st).successCount +
        (SlippageService.pairsLoop ts now prices resps pairs i st).errorCount +
        st.table.length =
       st.successCount + st.errorCount +
        (SlippageService.pairsLoop ts now prices resps pairs i st).table.length) ∧
      (st.requestCount ≤ SlippageService.MAX_REQUESTS_PER_HOUR →
        (SlippageService.pairsLoop ts now prices resps pairs i st).requestCount ≤
          SlippageService.MAX_REQUESTS_PER_HOUR)) ∧
    (∀ ts now prices resps pairs i (st : OkuSlippageService.RunState),
      (st.requestCount ≥ OkuSlippageService.MAX_REQUESTS_PER_HOUR →
        OkuSlippageService.pairsLoop ts now prices resps pairs i st = st) ∧
      (∃ ext, (OkuSlippageService.pairsLoop ts now prices resps pairs i st).table =
        st.table ++ ext) ∧
      ((OkuSlippageService.pairsLoop ts now prices resps pairs i st).successCount +
        (OkuSlippageService.pairsLoop ts now prices resps pairs i st).errorCount +
        st.table.length =
       st.successCount + st.errorCount +
        (OkuSlippageService.pairsLoop ts now prices resps pairs i st).table.length) ∧
      (st.requestCount ≤ OkuSlippageService.MAX_REQUESTS_PER_HOUR →
        (OkuSlippageService.pairsLoop ts now prices resps pairs i st).requestCount ≤
          OkuSlippageService.MAX_REQUESTS_PER_HOUR)) :=
  ⟨fun ts now prices resps pairs i st => slipPairsLoop_spec ts now prices resps pairs i st,
   fun ts now prices resps pairs i st => okuPairsLoop_spec ts now prices resps pairs i st⟩

/-- Witness for C8: a pair loop entered with the counter already at the
ceiling (1000 requests for the LiFi pipeline, 500 for the Oku pipeline)
stops immediately: the state, with one row already written, is returned
unchanged. -/
theorem claim_C8_rate_limit_ceiling_witness :
    SlippageService.pairsLoop 7 8 (fun _ => none)
      (fun _ _ => SlippageService.AmountResp.failed) [(c8from, c8to)] 0
      ⟨1000, [], [c8row], 3, 4⟩ = ⟨1000, [], [c8row], 3, 4⟩ ∧
    OkuSlippageService.pairsLoop 7 8 (fun _ => none)
      (fun _ _ => OkuSlippageService.OkuAmountResp.thrown) [(c8from, c8to)] 0
      ⟨500, [], [c8row], 3, 4⟩ = ⟨500, [], [c8row], 3, 4⟩ :=
  ⟨(claim_C8_rate_limit_ceiling.1 7 8 (fun _ => none)
      (fun _ _ => SlippageService.AmountResp.failed) [(c8from, c8to)] 0
      ⟨1000, [], [c8row], 3, 4⟩).1 (by decide),
   (claim_C8_rate_limit_ceiling.2 7 8 (fun _ => none)
      (fun _ _ => OkuSlippageService.OkuAmountResp.thrown) [(c8from, c8to)] 0
      ⟨500, [], [c8row], 3, 4⟩).1 (by decide)⟩

/-- C4 counterexample: with a failing Token Registry read, both cited
trigger entry points resolve normally — the claimed propagation of the
setup error to the caller does not happen (the outer catch only logs). -/
theorem claim_C4_counterexample :
    (LifiService.fetchAndCacheLiFiData 0 (Except.error DbErr.err)
      (fun _ => LifiService.ConnResp.thrown) []).outcome = Outcome.resolved ∧
    (SlippageService.fetchAndCacheSlippageData 0 0 (Except.error DbErr.err)
      [] [] (fun _ _ => SlippageService.AmountResp.failed) 0 []).1 =
      Outcome.resolved :=
  ⟨rfl, rfl⟩

/-- C4 amended: a failing setup read aborts the run — nothing is probed,
nothing is written, counters stay zero, the cache is untouched — but the
error is caught and logged inside the entry point, whose promise resolves
normally instead of propagating the error to the caller. -/
theorem claim_C4_setup_error_swallowed :
    (∀ e now resp tbl,
      LifiService.fetchAndCacheLiFiData now (Except.error e) resp tbl =
        ⟨Outcome.resolved, tbl, 0, 0⟩) ∧
    (∀ e ts now pt rts resps rc0 tbl0,
      SlippageService.fetchAndCacheSlippageData ts now (Except.error e) pt rts
          resps rc0 tbl0 =
        (Outcome.resolved, ⟨rc0, [], tbl0, 0, 0⟩)) ∧
    (∀ e now pt oracle tbl,
      OkuService.fetchAndCacheOkuData now (Except.error e) pt oracle tbl =
        ⟨Outcome.resolved, tbl, 0, 0⟩) ∧
    (∀ e ts now pt rt resps rc0 tbl0,
      OkuSlippageService.fetchAndCacheOkuSlippageData ts now (Except.error e)
          pt rt resps rc0 tbl0 =
        (Outcome.resolved, ⟨rc0, [], tbl0, 0, 0⟩)) :=
  ⟨fun _ _ _ _ => rfl, fun _ _ _ _ _ _ _ _ => rfl, fun _ _ _ _ _ => rfl,
   fun _ _ _ _ _ _ _ _ => rfl⟩

end Avail

